import Mathlib

/-!
Verification of the stroke-matching engine and quiz state machine of
react-native-hanzi-writer, shallowly embedded over the reals.

The geometry kernel (subtract, distance, length, cosineSimilarity, equals,
frechetDist, normalizeCurve, rotate) is imported by the matcher from a
module that is not part of the provided sources; those definitions are
modelled from the spec (section 4.1) and are marked as such.  Everything
else is translated directly from src/src/hanzi-writer/index.ts and
src/src/HanziWriter.tsx.
-/

open scoped Classical

noncomputable section

namespace HW

/-- A 2D point with real coordinates (`{x, y}`). -/
structure Point where
  x : ℝ
  y : ℝ

attribute [ext] Point

/-- Modelled from the spec: `subtract(a,b)` componentwise vector subtraction. -/
def subtract (a b : Point) : Point := ⟨a.x - b.x, a.y - b.y⟩

/-- Modelled from the spec: Euclidean `distance(a,b)`. -/
def distance (a b : Point) : ℝ :=
  Real.sqrt ((a.x - b.x) ^ 2 + (a.y - b.y) ^ 2)

/-- Modelled from the spec: `equals(a,b)` exact coordinate equality. -/
def equals (a b : Point) : Bool := decide (a.x = b.x ∧ a.y = b.y)

/-- Modelled from the spec: `length(points)`, the sum of consecutive segment
lengths of a polyline. -/
def plength : List Point → ℝ
  | [] => 0
  | [_] => 0
  | a :: b :: rest => distance a b + plength (b :: rest)

/-- Modelled from the spec: `cosineSimilarity(v1,v2)` is dot over the product
of magnitudes, defined as 0 if either vector has zero length. -/
def cosineSimilarity (v1 v2 : Point) : ℝ :=
  let m1 := Real.sqrt (v1.x ^ 2 + v1.y ^ 2)
  let m2 := Real.sqrt (v2.x ^ 2 + v2.y ^ 2)
  if m1 = 0 ∨ m2 = 0 then 0 else (v1.x * v2.x + v1.y * v2.y) / (m1 * m2)

/-- Modelled from the spec: `rotate(points, theta)` rotates every point about
the origin. -/
def rotate (points : List Point) (theta : ℝ) : List Point :=
  points.map fun p =>
    ⟨p.x * Real.cos theta - p.y * Real.sin theta,
     p.x * Real.sin theta + p.y * Real.cos theta⟩

/-- Modelled from the spec: `normalizeCurve(points)` translates the curve so
its first point is the origin, then scales uniformly so the path length is 1
(the spec allows bounding diagonal or path length; path length is used). -/
def normalizeCurve (points : List Point) : List Point :=
  let p0 : Point := points.headD ⟨0, 0⟩
  let translated := points.map fun p => subtract p p0
  let len := plength translated
  translated.map fun p => ⟨p.x / len, p.y / len⟩

/-- JavaScript-style minimum of a list (`Math.min` folded from infinity);
for the nonempty lists this development applies it to, it is the minimum. -/
def listMinD : List ℝ → ℝ
  | [] => 0
  | h :: t => t.foldl min h

/-- JavaScript-style maximum of a list (`Math.max` folded from negative
infinity); for nonempty lists it is the maximum. -/
def listMaxD : List ℝ → ℝ
  | [] => 0
  | h :: t => t.foldl max h

/-- `average(arr)` from src/src/hanzi-writer/index.ts: sum divided by length. -/
def average (l : List ℝ) : ℝ := l.sum / l.length

/-- Modelled from the spec: the discrete Frechet distance dynamic-programming
table `ca(i,j)` over two point sequences: the bottleneck (max) distance of the
best monotone coupling of the first `i+1` points of `A` with the first `j+1`
points of `B`. -/
def frechetCA (A B : List Point) : ℕ → ℕ → ℝ
  | 0, 0 => distance (A.headD ⟨0, 0⟩) (B.headD ⟨0, 0⟩)
  | i + 1, 0 =>
      max (frechetCA A B i 0) (distance (A.getD (i + 1) ⟨0, 0⟩) (B.headD ⟨0, 0⟩))
  | 0, j + 1 =>
      max (frechetCA A B 0 j) (distance (A.headD ⟨0, 0⟩) (B.getD (j + 1) ⟨0, 0⟩))
  | i + 1, j + 1 =>
      max
        (min (frechetCA A B i (j + 1))
          (min (frechetCA A B i j) (frechetCA A B (i + 1) j)))
        (distance (A.getD (i + 1) ⟨0, 0⟩) (B.getD (j + 1) ⟨0, 0⟩))

/-- Modelled from the spec: `frechetDist(curveA, curveB)`, the discrete
Frechet distance, read off the DP grid at the last index pair. -/
def frechetDist (A B : List Point) : ℝ :=
  frechetCA A B (A.length - 1) (B.length - 1)

/-! ## Positioner (src/src/hanzi-writer/index.ts lines 18-62) -/

/-- `CHARACTER_BOUNDS[0]` of src/src/hanzi-writer/index.ts. -/
def boundsFrom : Point := ⟨0, -124⟩

/-- `CHARACTER_BOUNDS[1]` of src/src/hanzi-writer/index.ts. -/
def boundsTo : Point := ⟨1024, 900⟩

/-- `preScaledWidth` of src/src/hanzi-writer/index.ts. -/
def preScaledWidth : ℝ := boundsTo.x - boundsFrom.x

/-- `preScaledHeight` of src/src/hanzi-writer/index.ts. -/
def preScaledHeight : ℝ := boundsTo.y - boundsFrom.y

structure PositionerOptions where
  width : ℝ
  height : ℝ
  padding : ℝ

/-- The `Positioner` class fields. -/
structure Positioner where
  padding : ℝ
  width : ℝ
  height : ℝ
  xOffset : ℝ
  yOffset : ℝ
  scale : ℝ

/-- The `Positioner` constructor of src/src/hanzi-writer/index.ts. -/
def mkPositioner (options : PositionerOptions) : Positioner :=
  let effectiveWidth := options.width - 2 * options.padding
  let effectiveHeight := options.height - 2 * options.padding
  let scaleX := effectiveWidth / preScaledWidth
  let scaleY := effectiveHeight / preScaledHeight
  let scale := min scaleX scaleY
  let xCenteringBuffer := options.padding + (effectiveWidth - scale * preScaledWidth) / 2
  let yCenteringBuffer := options.padding + (effectiveHeight - scale * preScaledHeight) / 2
  { padding := options.padding
    width := options.width
    height := options.height
    xOffset := -1 * boundsFrom.x * scale + xCenteringBuffer
    yOffset := -1 * boundsFrom.y * scale + yCenteringBuffer
    scale := scale }

/-- `Positioner.convertExternalPoint` of src/src/hanzi-writer/index.ts. -/
def convertExternalPoint (pos : Positioner) (point : Point) : Point :=
  ⟨(point.x - pos.xOffset) / pos.scale,
   (pos.height - pos.yOffset - point.y) / pos.scale⟩

/-- The inverse affine map stated by the spec claim for C9:
`q -> { x: q.x * scale + xOffset, y: height - yOffset - q.y * scale }`.
This definition follows the claim text, to be compared with
`convertExternalPoint`. -/
def inverseExternalMap (pos : Positioner) (q : Point) : Point :=
  ⟨q.x * pos.scale + pos.xOffset, pos.height - pos.yOffset - q.y * pos.scale⟩

/-! ## Character model (src/src/hanzi-writer/index.ts lines 64-162) -/

/-- The `UserStroke` class: canonical-space points plus the raw
drawing-surface points, built up during a gesture. -/
structure UserStroke where
  id : ℕ
  points : List Point
  externalPoints : List Point

/-- The `Stroke` class: an opaque path descriptor, the ordered median
sample points, the stroke ordinal, and radical membership. -/
structure Stroke where
  path : String
  points : List Point
  strokeNum : ℕ
  isInRadical : Bool

/-- `Stroke.getStartingPoint`: the first median point (`this.points[0]`). -/
def Stroke.getStartingPoint (s : Stroke) : Point := s.points.headD ⟨0, 0⟩

/-- `Stroke.getEndingPoint`: the last median point. -/
def Stroke.getEndingPoint (s : Stroke) : Point := s.points.getLastD ⟨0, 0⟩

/-- `Stroke.getLength`: polyline length of the medians. -/
def Stroke.getLength (s : Stroke) : ℝ := plength s.points

/-- `Stroke.getVectors`: per-segment displacement vectors of the medians. -/
def Stroke.getVectors (s : Stroke) : List Point :=
  (s.points.zip s.points.tail).map fun pr => subtract pr.2 pr.1

/-- `Stroke.getDistance(point)`: minimum distance from `point` to any median
sample point (`Math.min` over the pointwise distances). -/
def Stroke.getDistance (s : Stroke) (point : Point) : ℝ :=
  listMinD (s.points.map fun strokePoint => distance strokePoint point)

/-- `Stroke.getAverageDistance(points)`: mean of `getDistance` over the
input points. -/
def Stroke.getAverageDistance (s : Stroke) (points : List Point) : ℝ :=
  (points.map fun p => s.getDistance p).sum / points.length

/-- The `Character` class: a symbol and its ordered strokes. -/
structure Character where
  symbol : String
  strokes : List Stroke

/-- The raw character payload `{strokes, medians, radStrokes}` as delivered
by the external data source.  Each field is optional so that absent arrays
(malformed payloads) can be represented. -/
structure CharacterJson where
  strokes : Option (List String)
  medians : Option (List (List Point))
  radStrokes : Option (List ℕ)

/-- A thrown JavaScript runtime error (a `TypeError` from accessing a
property of `undefined`); the parser has no dedicated error type. -/
inductive JsError where
  | typeError
deriving DecidableEq

/-- `isInRadical` of `generateStrokes`:
`(radStrokes?.indexOf(strokeNum) ?? -1) >= 0`. -/
def isInRadicalJson (radStrokes : Option (List ℕ)) (strokeNum : ℕ) : Bool :=
  match radStrokes with
  | none => false
  | some l => l.contains strokeNum

/-- One step of `generateStrokes`: building the stroke at index `idx` from
`medians[idx]`; accessing a missing median entry (`undefined.map`) throws. -/
def buildStroke (medians : Option (List (List Point)))
    (radStrokes : Option (List ℕ)) (path : String) (idx : ℕ) :
    Except JsError Stroke :=
  match medians with
  | none => .error .typeError
  | some ms =>
    match ms[idx]? with
    | none => .error .typeError
    | some pts => .ok ⟨path, pts, idx, isInRadicalJson radStrokes idx⟩

/-- The indexed traversal inside `generateStrokes` (`strokes.map` with the
running index); the first thrown error aborts the whole map. -/
def generateStrokesGo (medians : Option (List (List Point)))
    (radStrokes : Option (List ℕ)) : List String → ℕ → Except JsError (List Stroke)
  | [], _ => .ok []
  | path :: rest, idx =>
    match buildStroke medians radStrokes path idx with
    | .error e => .error e
    | .ok s =>
      match generateStrokesGo medians radStrokes rest (idx + 1) with
      | .error e => .error e
      | .ok tail => .ok (s :: tail)

/-- `generateStrokes` of src/src/hanzi-writer/index.ts: maps each raw stroke
path to a `Stroke` using the median entry of the same index; a missing
`strokes` array or a missing median entry throws. -/
def generateStrokes (cj : CharacterJson) : Except JsError (List Stroke) :=
  match cj.strokes with
  | none => .error .typeError
  | some ss => generateStrokesGo cj.medians cj.radStrokes ss 0

/-- `parseCharData` of src/src/hanzi-writer/index.ts. -/
def parseCharData (symbol : String) (cj : CharacterJson) :
    Except JsError Character :=
  match generateStrokes cj with
  | .error e => .error e
  | .ok strokes => .ok ⟨symbol, strokes⟩

/-! ## Stroke matcher (src/src/hanzi-writer/index.ts lines 164-370) -/

/-- `AVG_DIST_THRESHOLD`. -/
def AVG_DIST_THRESHOLD : ℝ := 350

/-- `COSINE_SIMILARITY_THRESHOLD`. -/
def COSINE_SIMILARITY_THRESHOLD : ℝ := 0

/-- `START_AND_END_DIST_THRESHOLD`. -/
def START_AND_END_DIST_THRESHOLD : ℝ := 250

/-- `FRECHET_THRESHOLD`. -/
def FRECHET_THRESHOLD : ℝ := 0.4

/-- `MIN_LEN_THRESHOLD`. -/
def MIN_LEN_THRESHOLD : ℝ := 0.35

/-- JavaScript `a || d` for an optional number `a`: the default is used when
`a` is absent or zero (falsy). -/
def jsOrNum (a : Option ℝ) (d : ℝ) : ℝ :=
  match a with
  | none => d
  | some v => if v = 0 then d else v

/-- JavaScript truthiness of an optional boolean (absent is falsy). -/
def jsTruthy (a : Option Bool) : Bool :=
  match a with
  | none => false
  | some b => b

/-- JavaScript `a || d` for an optional integer. -/
def jsOrInt (a : Option ℤ) (d : ℤ) : ℤ :=
  match a with
  | none => d
  | some v => if v = 0 then d else v

/-- `StrokeMatchResultMeta`. -/
structure StrokeMatchResultMeta where
  isStrokeBackwards : Bool
deriving DecidableEq

/-- `StrokeMatchResult`. -/
structure StrokeMatchResult where
  isMatch : Bool
  meta : StrokeMatchResultMeta
deriving DecidableEq

/-- The record returned by `getMatchData` (`StrokeMatchResult` plus the
computed average distance). -/
structure MatchData where
  isMatch : Bool
  avgDist : ℝ
  meta : StrokeMatchResultMeta

/-- The options record taken by `getMatchData`; absent fields default to
`leniency = 1`, `isOutlineVisible = false`, `checkBackwards = true`. -/
structure MatchOptions where
  leniency : Option ℝ
  isOutlineVisible : Option Bool
  checkBackwards : Option Bool

/-- The options record taken by `strokeMatches` (no `checkBackwards`). -/
structure StrokeMatchOptions where
  leniency : Option ℝ
  isOutlineVisible : Option Bool

/-- `startAndEndMatches` of src/src/hanzi-writer/index.ts. -/
def startAndEndMatches (points : List Point) (closestStroke : Stroke)
    (leniency : ℝ) : Prop :=
  distance closestStroke.getStartingPoint (points.headD ⟨0, 0⟩) ≤
      START_AND_END_DIST_THRESHOLD * leniency ∧
    distance closestStroke.getEndingPoint (points.getLastD ⟨0, 0⟩) ≤
      START_AND_END_DIST_THRESHOLD * leniency

/-- `getEdgeVectors` of src/src/hanzi-writer/index.ts. -/
def getEdgeVectors (points : List Point) : List Point :=
  (points.zip points.tail).map fun pr => subtract pr.2 pr.1

/-- `directionMatches` of src/src/hanzi-writer/index.ts: the average over
user edges of the best cosine similarity against any stroke vector must
exceed the cosine threshold. -/
def directionMatches (points : List Point) (stroke : Stroke) : Prop :=
  let edgeVectors := getEdgeVectors points
  let strokeVectors := stroke.getVectors
  let similarities := edgeVectors.map fun edgeVector =>
    listMaxD (strokeVectors.map fun strokeVector =>
      cosineSimilarity strokeVector edgeVector)
  average similarities > COSINE_SIMILARITY_THRESHOLD

/-- `lengthMatches` of src/src/hanzi-writer/index.ts. -/
def lengthMatches (points : List Point) (stroke : Stroke) (leniency : ℝ) : Prop :=
  leniency * (plength points + 25) / (stroke.getLength + 25) ≥ MIN_LEN_THRESHOLD

/-- `stripDuplicates` of src/src/hanzi-writer/index.ts: drop each point equal
to the previously kept point. -/
def stripDuplicatesGo (acc : Point) : List Point → List Point
  | [] => []
  | p :: rest =>
    if equals p acc then stripDuplicatesGo acc rest
    else p :: stripDuplicatesGo p rest

/-- `stripDuplicates` entry: lists shorter than 2 are returned unchanged. -/
def stripDuplicates (points : List Point) : List Point :=
  if points.length < 2 then points
  else
    match points with
    | [] => []
    | first :: rest => first :: stripDuplicatesGo first rest

/-- `SHAPE_FIT_ROTATIONS` of src/src/hanzi-writer/index.ts. -/
def shapeFitThetas : List ℝ :=
  [Real.pi / 16, Real.pi / 32, 0, -1 * Real.pi / 32, -1 * Real.pi / 16]

/-- `shapeFit` of src/src/hanzi-writer/index.ts: minimum Frechet distance
between the normalized user curve and the normalized reference curve rotated
by each candidate angle, compared against the Frechet threshold. -/
def shapeFit (curve1 curve2 : List Point) (leniency : ℝ) : Prop :=
  let normCurve1 := normalizeCurve curve1
  let normCurve2 := normalizeCurve curve2
  let dists := shapeFitThetas.map fun theta =>
    frechetDist normCurve1 (rotate normCurve2 theta)
  listMinD dists ≤ FRECHET_THRESHOLD * leniency

/-- `distMod` inside `getMatchData`: 0.5 once visual guidance is available
(outline visible or not the first stroke), else 1. -/
def distMod (stroke : Stroke) (isOutlineVisible : Bool) : ℝ :=
  if isOutlineVisible = true ∨ stroke.strokeNum > 0 then 0.5 else 1

/-- The distance criterion of `getMatchData`. -/
def withinDistThresh (avgDist : ℝ) (stroke : Stroke)
    (isOutlineVisible : Bool) (leniency : ℝ) : Prop :=
  avgDist ≤ AVG_DIST_THRESHOLD * distMod stroke isOutlineVisible * leniency

/-- The five-criteria conjunction computed by `getMatchData` once the
distance short-circuit has been passed. -/
def matchConj (points : List Point) (stroke : Stroke) (leniency : ℝ)
    (isOutlineVisible : Bool) (avgDist : ℝ) : Bool :=
  decide (withinDistThresh avgDist stroke isOutlineVisible leniency) &&
    decide (startAndEndMatches points stroke leniency) &&
    decide (directionMatches points stroke) &&
    decide (shapeFit points stroke.points leniency) &&
    decide (lengthMatches points stroke leniency)

/-- `getMatchData` with `checkBackwards = false`: the forward-only composite
classifier (distance short-circuit, then ends, direction, shape, length). -/
def getMatchDataNB (points : List Point) (stroke : Stroke) (leniency : ℝ)
    (isOutlineVisible : Bool) : MatchData :=
  let avgDist := stroke.getAverageDistance points
  if decide (withinDistThresh avgDist stroke isOutlineVisible leniency) = false then
    ⟨false, avgDist, ⟨false⟩⟩
  else
    ⟨matchConj points stroke leniency isOutlineVisible avgDist, avgDist, ⟨false⟩⟩

/-- `getMatchData` of src/src/hanzi-writer/index.ts.  The original retries
itself once on the reversed point sequence with `checkBackwards = false`;
following the spec's design note, the single-depth recursion is written as an
explicit second pass (`getMatchDataNB`).  Note that on a backwards match the
original forward `isMatch` (false) is returned together with
`isStrokeBackwards = true`. -/
def getMatchData (points : List Point) (stroke : Stroke)
    (options : MatchOptions) : MatchData :=
  let leniency := options.leniency.getD 1
  let isOutlineVisible := options.isOutlineVisible.getD false
  let checkBackwards := options.checkBackwards.getD true
  let avgDist := stroke.getAverageDistance points
  if decide (withinDistThresh avgDist stroke isOutlineVisible leniency) = false then
    ⟨false, avgDist, ⟨false⟩⟩
  else
    let isMatch := matchConj points stroke leniency isOutlineVisible avgDist
    if checkBackwards = true ∧ isMatch = false then
      let backwardsMatchData :=
        getMatchDataNB points.reverse stroke leniency isOutlineVisible
      if backwardsMatchData.isMatch = true then ⟨isMatch, avgDist, ⟨true⟩⟩
      else ⟨isMatch, avgDist, ⟨false⟩⟩
    else ⟨isMatch, avgDist, ⟨false⟩⟩

/-- The default stroke produced by indexing `strokes[strokeNum]` out of
range would be `undefined` in the original; claims only consider valid
indices, where this default is never used. -/
def defaultStroke : Stroke := ⟨"", [], 0, false⟩

/-- The fold computing `closestMatchDist` in `strokeMatches`: starting from
the forward average distance, take any later stroke that matches (without
backwards checking) at a strictly smaller average distance. -/
def closestMatchDist (points : List Point) (laterStrokes : List Stroke)
    (options : StrokeMatchOptions) (start : ℝ) : ℝ :=
  laterStrokes.foldl
    (fun acc s =>
      let r := getMatchData points s ⟨options.leniency, options.isOutlineVisible, some false⟩
      if r.isMatch = true ∧ r.avgDist < acc then r.avgDist else acc)
    start

/-- `strokeMatches` of src/src/hanzi-writer/index.ts. -/
def strokeMatches (userStroke : UserStroke) (character : Character)
    (strokeNum : ℕ) (options : StrokeMatchOptions) : StrokeMatchResult :=
  let strokes := character.strokes
  let points := stripDuplicates userStroke.points
  if points.length < 2 then ⟨false, ⟨false⟩⟩
  else
    let stroke := strokes.getD strokeNum defaultStroke
    let one := getMatchData points stroke ⟨options.leniency, options.isOutlineVisible, none⟩
    if one.isMatch = false then ⟨one.isMatch, one.meta⟩
    else
      let laterStrokes := strokes.drop (strokeNum + 1)
      let closest := closestMatchDist points laterStrokes options one.avgDist
      if closest < one.avgDist then
        let leniencyAdjustment := 0.6 * (closest + one.avgDist) / (2 * one.avgDist)
        let three := getMatchData points stroke
          ⟨some ((jsOrNum options.leniency 1) * leniencyAdjustment),
           options.isOutlineVisible, none⟩
        ⟨three.isMatch, three.meta⟩
      else ⟨one.isMatch, one.meta⟩

/-! ## Quiz state machine (src/src/HanziWriter.tsx lines 518-675) -/

/-- `StartQuizParams`: the quiz configuration passed to `start` (callback
handlers are external collaborators and are not part of the state). -/
structure StartQuizParams where
  leniency : Option ℝ
  quizStartStrokeNum : Option ℤ
  acceptBackwardsStrokes : Option Bool
  showHintAfterMisses : Option ℤ

/-- The `QuizState` store: the TS tagged union is a record whose `params` is
`null` exactly in the `Inactive` variant. -/
structure QuizState where
  active : Bool
  character : String
  index : ℕ
  mistakes : List (ℕ × ℕ)
  params : Option StartQuizParams

/-- `mistakes[index] || 0`: the recorded mistake count for a stroke. -/
def getMistakes (m : List (ℕ × ℕ)) (k : ℕ) : ℕ :=
  match m.find? fun p => p.1 = k with
  | none => 0
  | some p => p.2

/-- The object spread `{...mistakes, [index]: n}`: replace the entry for an
existing key in place, otherwise append the new key. -/
def setMistakes (m : List (ℕ × ℕ)) (k : ℕ) (v : ℕ) : List (ℕ × ℕ) :=
  if (m.map Prod.fst).contains k then
    m.map fun p => if p.1 = k then (k, v) else p
  else m ++ [(k, v)]

/-- `Object.keys(mistakes).length`: the number of distinct stroke indices
with a recorded mistake. -/
def keysCount (m : List (ℕ × ℕ)) : ℕ := (m.map Prod.fst).dedup.length

/-- The payload passed to `onMistake` (the `StrokeData` fields computed in
`check`; `drawnPath.pathString` is the constant empty string). -/
structure StrokeData where
  character : String
  points : List Point
  isBackwards : Bool
  mistakesOnStroke : ℕ
  strokeNum : ℕ
  strokesRemaining : ℕ
  totalMistakes : ℕ

/-- An observable quiz notification: the data handed to the corresponding
optional callback at the moment `check` fires it. -/
inductive QuizEvent where
  | mistake (data : StrokeData)
  | complete (character : String) (totalMistakes : ℕ)

/-- The module-level positioner of src/src/HanziWriter.tsx line 212:
`new Positioner({ height: 300, width: 300, padding: 0 })`. -/
def positionerHW : Positioner := mkPositioner ⟨300, 300, 0⟩

/-- `params?.leniency || 1.2`: the leniency actually handed to
`strokeMatches` by `check`. -/
def checkLeniency (params : Option StartQuizParams) : ℝ :=
  jsOrNum (params.bind StartQuizParams.leniency) 1.2

/-- The body of `useQuiz.check` once the character is loaded and the first
point has been destructured, parameterized by the effective leniency. -/
def checkCore (char : Character) (st : QuizState) (first : Point)
    (rest : List Point) (leniency : ℝ) : QuizState × List QuizEvent :=
  let firstPoint := convertExternalPoint positionerHW first
  let userStroke : UserStroke :=
    ⟨st.index, firstPoint :: rest.map (convertExternalPoint positionerHW),
     first :: rest⟩
  let r := strokeMatches userStroke char st.index ⟨some leniency, none⟩
  let isAccepted :=
    r.isMatch ||
      (r.meta.isStrokeBackwards &&
        jsTruthy (st.params.bind StartQuizParams.acceptBackwardsStrokes))
  if isAccepted = false then
    let numMistakes := getMistakes st.mistakes st.index + 1
    let st' := { st with mistakes := setMistakes st.mistakes st.index numMistakes }
    let events :=
      match st.params with
      | none => []
      | some _ =>
        [QuizEvent.mistake
          { character := st.character
            points := userStroke.points
            isBackwards := r.meta.isStrokeBackwards
            mistakesOnStroke := numMistakes
            strokeNum := st.index
            strokesRemaining := char.strokes.length - st.index
            totalMistakes := keysCount st.mistakes }]
    (st', events)
  else
    let stillActive := decide (st.index < char.strokes.length - 1)
    let events :=
      if stillActive = false then
        match st.params with
        | none => []
        | some _ => [QuizEvent.complete char.symbol (keysCount st.mistakes)]
      else []
    ({ st with index := if stillActive = true then st.index + 1 else 0,
               active := stillActive },
     events)

/-- `useQuiz.check` of src/src/HanziWriter.tsx: a no-op when no character is
loaded; destructuring the first point of an empty list and converting
`undefined` throws (`none`); otherwise grade the drawn stroke.  Note there
is no guard on `active`. -/
def check (characterClass : Option Character) (st : QuizState)
    (simplifiedPoints : List Point) : Option (QuizState × List QuizEvent) :=
  match characterClass with
  | none => some (st, [])
  | some char =>
    match simplifiedPoints with
    | [] => none
    | first :: rest => some (checkCore char st first rest (checkLeniency st.params))

/-- `useQuiz.start` of src/src/HanziWriter.tsx: warn-and-return when no
character is loaded; otherwise clamp `quizStartStrokeNum || 0` with
`Math.max(Math.min(_, strokeCount - 1), 0)` and activate. -/
def start (characterClass : Option Character) (st : QuizState)
    (params : StartQuizParams) : QuizState :=
  match characterClass with
  | none => st
  | some char =>
    let index : ℤ :=
      max (min (jsOrInt params.quizStartStrokeNum 0)
            ((char.strokes.length : ℤ) - 1)) 0
    { st with active := true, index := index.toNat, mistakes := [], params := some params }

/-- `useQuiz.stop` of src/src/HanziWriter.tsx. -/
def stop (st : QuizState) : QuizState :=
  { st with active := false, index := 0, mistakes := [], params := none }

attribute [ext] QuizState

/-! ## Concrete fixtures used by witnesses and counterexamples -/

/-- A single horizontal reference stroke from `(0,0)` to `(100,0)`. -/
def strokeH : Stroke := ⟨"p", [⟨0, 0⟩, ⟨100, 0⟩], 0, false⟩

/-- A one-stroke character built from `strokeH`. -/
def charYi : Character := ⟨"yi", [strokeH]⟩

/-- A second horizontal reference stroke 50 units above `strokeH`. -/
def strokeH50 : Stroke := ⟨"q", [⟨0, 50⟩, ⟨100, 50⟩], 1, false⟩

/-- A two-stroke character with two parallel horizontal strokes. -/
def charTwo : Character := ⟨"er", [strokeH, strokeH50]⟩

/-! ## Geometry lemmas -/

theorem distance_nonneg (a b : Point) : 0 ≤ distance a b :=
  Real.sqrt_nonneg _

theorem distance_self (a : Point) : distance a a = 0 := by
  simp [distance]

theorem sqrt_ten_thousand : Real.sqrt 10000 = 100 := by
  rw [show (10000 : ℝ) = 100 ^ 2 by norm_num, Real.sqrt_sq (by norm_num)]

theorem foldl_min_le (t : List ℝ) (a : ℝ) :
    t.foldl min a ≤ a ∧ ∀ x ∈ t, t.foldl min a ≤ x := by
  induction t generalizing a with
  | nil => exact ⟨le_refl a, by simp⟩
  | cons b t' ih =>
    have h := ih (min a b)
    refine ⟨h.1.trans (min_le_left a b), ?_⟩
    intro x hx
    rcases List.mem_cons.mp hx with rfl | hx'
    · exact (List.foldl_cons _ _ ▸ h.1.trans (min_le_right a x))
    · exact List.foldl_cons _ _ ▸ h.2 x hx'

theorem foldl_min_nonneg (t : List ℝ) (a : ℝ) (ha : 0 ≤ a)
    (ht : ∀ x ∈ t, 0 ≤ x) : 0 ≤ t.foldl min a := by
  induction t generalizing a with
  | nil => exact ha
  | cons b t' ih =>
    rw [List.foldl_cons]
    exact ih (min a b) (le_min ha (ht b (List.mem_cons_self b t')))
      fun x hx => ht x (List.mem_cons_of_mem b hx)

theorem listMinD_le_of_mem {l : List ℝ} {x : ℝ} (hx : x ∈ l) :
    listMinD l ≤ x := by
  cases l with
  | nil => cases hx
  | cons h t =>
    rcases List.mem_cons.mp hx with rfl | hx'
    · exact (foldl_min_le t x).1
    · exact (foldl_min_le t h).2 x hx'

theorem listMinD_nonneg {l : List ℝ} (h : ∀ x ∈ l, 0 ≤ x) :
    0 ≤ listMinD l := by
  cases l with
  | nil => exact le_refl 0
  | cons a t =>
    exact foldl_min_nonneg t a (h a (List.mem_cons_self a t))
      fun x hx => h x (List.mem_cons_of_mem a hx)

theorem getDistance_nonneg (s : Stroke) (p : Point) : 0 ≤ s.getDistance p := by
  apply listMinD_nonneg
  intro x hx
  rcases List.mem_map.mp hx with ⟨q, _, rfl⟩
  exact distance_nonneg q p

theorem getAverageDistance_nonneg (s : Stroke) (points : List Point) :
    0 ≤ s.getAverageDistance points := by
  apply div_nonneg _ (by positivity)
  apply List.sum_nonneg
  intro x hx
  rcases List.mem_map.mp hx with ⟨q, _, rfl⟩
  exact getDistance_nonneg s q

theorem getAverageDistance_reverse (s : Stroke) (points : List Point) :
    s.getAverageDistance points.reverse = s.getAverageDistance points := by
  simp [Stroke.getAverageDistance, List.map_reverse, List.sum_reverse]

theorem frechetCA_nonneg (A B : List Point) (i j : ℕ) :
    0 ≤ frechetCA A B i j := by
  induction i generalizing j with
  | zero =>
    cases j with
    | zero =>
      rw [frechetCA]
      exact distance_nonneg _ _
    | succ j' =>
      rw [frechetCA]
      exact le_max_of_le_right (distance_nonneg _ _)
  | succ i' ih =>
    cases j with
    | zero =>
      rw [frechetCA]
      exact le_max_of_le_right (distance_nonneg _ _)
    | succ j' =>
      rw [frechetCA]
      exact le_max_of_le_right (distance_nonneg _ _)

theorem frechetCA_self (A : List Point) (i : ℕ) : frechetCA A A i i = 0 := by
  induction i with
  | zero =>
    rw [frechetCA]
    exact distance_self _
  | succ i' ih =>
    rw [frechetCA]
    have h1 : min (frechetCA A A i' (i' + 1))
        (min (frechetCA A A i' i') (frechetCA A A (i' + 1) i')) = 0 := by
      have hle : min (frechetCA A A i' (i' + 1))
          (min (frechetCA A A i' i') (frechetCA A A (i' + 1) i')) ≤ 0 := by
        calc min (frechetCA A A i' (i' + 1))
              (min (frechetCA A A i' i') (frechetCA A A (i' + 1) i')) ≤
            min (frechetCA A A i' i') (frechetCA A A (i' + 1) i') :=
              min_le_right _ _
          _ ≤ frechetCA A A i' i' := min_le_left _ _
          _ = 0 := ih
      have hge : 0 ≤ min (frechetCA A A i' (i' + 1))
          (min (frechetCA A A i' i') (frechetCA A A (i' + 1) i')) :=
        le_min (frechetCA_nonneg _ _ _ _)
          (le_min (frechetCA_nonneg _ _ _ _) (frechetCA_nonneg _ _ _ _))
      linarith
    rw [h1, distance_self, max_self]

theorem frechetDist_self (A : List Point) : frechetDist A A = 0 :=
  frechetCA_self A (A.length - 1)

theorem rotate_zero (points : List Point) : rotate points 0 = points := by
  unfold rotate
  have : ∀ p : Point,
      (⟨p.x * Real.cos 0 - p.y * Real.sin 0,
        p.x * Real.sin 0 + p.y * Real.cos 0⟩ : Point) = p := by
    intro p
    ext <;> simp
  simp only [this, List.map_id']

theorem shapeFit_self (c : List Point) (leniency : ℝ) (h : 0 ≤ leniency) :
    shapeFit c c leniency := by
  unfold shapeFit
  have hmem : frechetDist (normalizeCurve c) (rotate (normalizeCurve c) 0) ∈
      shapeFitThetas.map fun theta =>
        frechetDist (normalizeCurve c) (rotate (normalizeCurve c) theta) := by
    apply List.mem_map_of_mem
    simp [shapeFitThetas]
  have hzero : frechetDist (normalizeCurve c) (rotate (normalizeCurve c) 0) = 0 := by
    rw [rotate_zero]
    exact frechetDist_self _
  have hle := listMinD_le_of_mem hmem
  rw [hzero] at hle
  have : (0 : ℝ) ≤ FRECHET_THRESHOLD * leniency := by
    unfold FRECHET_THRESHOLD
    positivity
  linarith

/-! ## Matcher structure lemmas -/

theorem matchConj_eq_true (points : List Point) (stroke : Stroke)
    (leniency : ℝ) (isOutlineVisible : Bool) (avgDist : ℝ) :
    matchConj points stroke leniency isOutlineVisible avgDist = true ↔
      withinDistThresh avgDist stroke isOutlineVisible leniency ∧
        startAndEndMatches points stroke leniency ∧
        directionMatches points stroke ∧
        shapeFit points stroke.points leniency ∧
        lengthMatches points stroke leniency := by
  simp [matchConj, Bool.and_eq_true, decide_eq_true_eq, and_assoc]

/-- `getMatchData` with `checkBackwards = some false` is exactly the
forward-only pass. -/
theorem getMatchData_cb_false (points : List Point) (stroke : Stroke)
    (lopt : Option ℝ) (oopt : Option Bool) :
    getMatchData points stroke ⟨lopt, oopt, some false⟩ =
      getMatchDataNB points stroke (lopt.getD 1) (oopt.getD false) := by
  simp only [getMatchData, getMatchDataNB]
  split
  · rfl
  · simp

/-- When all five criteria hold, `getMatchData` matches (for any
`checkBackwards`), with no backwardness. -/
theorem getMatchData_of_all (points : List Point) (stroke : Stroke)
    (opts : MatchOptions)
    (h : matchConj points stroke (opts.leniency.getD 1)
        (opts.isOutlineVisible.getD false) (stroke.getAverageDistance points) = true) :
    getMatchData points stroke opts =
      ⟨true, stroke.getAverageDistance points, ⟨false⟩⟩ := by
  have hw : withinDistThresh (stroke.getAverageDistance points) stroke
      (opts.isOutlineVisible.getD false) (opts.leniency.getD 1) :=
    ((matchConj_eq_true _ _ _ _ _).mp h).1
  simp only [getMatchData]
  rw [if_neg (by simp [decide_eq_true hw]), h]
  simp

/-- Same statement for the forward-only pass. -/
theorem getMatchDataNB_of_all (points : List Point) (stroke : Stroke)
    (leniency : ℝ) (isOutlineVisible : Bool)
    (h : matchConj points stroke leniency isOutlineVisible
        (stroke.getAverageDistance points) = true) :
    getMatchDataNB points stroke leniency isOutlineVisible =
      ⟨true, stroke.getAverageDistance points, ⟨false⟩⟩ := by
  have hw : withinDistThresh (stroke.getAverageDistance points) stroke
      isOutlineVisible leniency :=
    ((matchConj_eq_true _ _ _ _ _).mp h).1
  simp only [getMatchDataNB]
  rw [if_neg (by simp [decide_eq_true hw]), h]

/-! ## Concrete evaluation lemmas for horizontal segments -/

theorem listMinD_pair_left {d : ℝ} (hd : 0 ≤ d) : listMinD [0, d] = 0 := by
  simp [listMinD, min_eq_left hd]

theorem listMinD_pair_right {d : ℝ} (hd : 0 ≤ d) : listMinD [d, 0] = 0 := by
  simp [listMinD, min_eq_right hd]

theorem distance_hseg (a c : ℝ) : distance ⟨a, c⟩ ⟨a + 100, c⟩ = 100 := by
  simp only [distance]
  have h : (a - (a + 100)) ^ 2 + (c - c) ^ 2 = 10000 := by ring
  rw [h, sqrt_ten_thousand]

theorem distance_hseg_swap (a c : ℝ) : distance ⟨a + 100, c⟩ ⟨a, c⟩ = 100 := by
  simp only [distance]
  have h : (a + 100 - a) ^ 2 + (c - c) ^ 2 = 10000 := by ring
  rw [h, sqrt_ten_thousand]

theorem plength_hseg (a c : ℝ) : plength [⟨a, c⟩, ⟨a + 100, c⟩] = 100 := by
  rw [plength, plength, distance_hseg, add_zero]

theorem cosineSimilarity_h100 : cosineSimilarity ⟨100, 0⟩ ⟨100, 0⟩ = 1 := by
  simp only [cosineSimilarity]
  have hm : Real.sqrt ((100 : ℝ) ^ 2 + 0 ^ 2) = 100 := by
    rw [show (100 : ℝ) ^ 2 + 0 ^ 2 = 10000 by norm_num, sqrt_ten_thousand]
  rw [if_neg (by rw [hm]; norm_num)]
  rw [hm]
  norm_num

theorem hseg_avgDist (a c : ℝ) (path : String) (n : ℕ) (rad : Bool) :
    Stroke.getAverageDistance ⟨path, [⟨a, c⟩, ⟨a + 100, c⟩], n, rad⟩
      [⟨a, c⟩, ⟨a + 100, c⟩] = 0 := by
  have h1 : Stroke.getDistance ⟨path, [⟨a, c⟩, ⟨a + 100, c⟩], n, rad⟩ ⟨a, c⟩ = 0 := by
    simp only [Stroke.getDistance, List.map_cons, List.map_nil, distance_self,
      distance_hseg_swap]
    exact listMinD_pair_left (by norm_num)
  have h2 : Stroke.getDistance ⟨path, [⟨a, c⟩, ⟨a + 100, c⟩], n, rad⟩ ⟨a + 100, c⟩ = 0 := by
    simp only [Stroke.getDistance, List.map_cons, List.map_nil, distance_self,
      distance_hseg]
    exact listMinD_pair_right (by norm_num)
  simp [Stroke.getAverageDistance, h1, h2]

theorem distMod_pos (stroke : Stroke) (o : Bool) : 0 < distMod stroke o := by
  unfold distMod
  split <;> norm_num

theorem subtract_hseg (a c : ℝ) :
    subtract ⟨a + 100, c⟩ ⟨a, c⟩ = (⟨100, 0⟩ : Point) := by
  unfold subtract
  ext
  · show a + 100 - a = 100
    ring
  · show c - c = 0
    ring

theorem hseg_matchConj (a c len : ℝ) (path : String) (n : ℕ) (rad : Bool)
    (o : Bool) (hlen : 0.35 ≤ len) :
    matchConj [⟨a, c⟩, ⟨a + 100, c⟩] ⟨path, [⟨a, c⟩, ⟨a + 100, c⟩], n, rad⟩
      len o
      (Stroke.getAverageDistance ⟨path, [⟨a, c⟩, ⟨a + 100, c⟩], n, rad⟩
        [⟨a, c⟩, ⟨a + 100, c⟩]) = true := by
  have hlen0 : (0 : ℝ) ≤ len := by linarith
  rw [matchConj_eq_true, hseg_avgDist]
  have hW : withinDistThresh 0 ⟨path, [⟨a, c⟩, ⟨a + 100, c⟩], n, rad⟩ o len := by
    unfold withinDistThresh AVG_DIST_THRESHOLD
    have hd := distMod_pos (⟨path, [⟨a, c⟩, ⟨a + 100, c⟩], n, rad⟩ : Stroke) o
    exact mul_nonneg (mul_nonneg (by norm_num) hd.le) hlen0
  have hSE : startAndEndMatches [⟨a, c⟩, ⟨a + 100, c⟩]
      ⟨path, [⟨a, c⟩, ⟨a + 100, c⟩], n, rad⟩ len := by
    unfold startAndEndMatches START_AND_END_DIST_THRESHOLD
    constructor
    · simp only [Stroke.getStartingPoint, List.headD_cons, distance_self]
      linarith
    · simp only [Stroke.getEndingPoint, List.getLastD, distance_self]
      linarith
  have hDir : directionMatches [⟨a, c⟩, ⟨a + 100, c⟩]
      ⟨path, [⟨a, c⟩, ⟨a + 100, c⟩], n, rad⟩ := by
    unfold directionMatches COSINE_SIMILARITY_THRESHOLD
    simp only [getEdgeVectors, Stroke.getVectors, List.tail_cons,
      List.zip_cons_cons, List.zip_nil_right, List.map_cons, List.map_nil,
      subtract_hseg, cosineSimilarity_h100, listMaxD, List.foldl_nil]
    simp [average]
  have hShape : shapeFit [⟨a, c⟩, ⟨a + 100, c⟩]
      (Stroke.points ⟨path, [⟨a, c⟩, ⟨a + 100, c⟩], n, rad⟩) len :=
    shapeFit_self _ len hlen0
  have hLen : lengthMatches [⟨a, c⟩, ⟨a + 100, c⟩]
      ⟨path, [⟨a, c⟩, ⟨a + 100, c⟩], n, rad⟩ len := by
    unfold lengthMatches MIN_LEN_THRESHOLD Stroke.getLength
    show len * (plength [⟨a, c⟩, ⟨a + 100, c⟩] + 25) /
        (plength [⟨a, c⟩, ⟨a + 100, c⟩] + 25) ≥ 0.35
    rw [plength_hseg]
    have heq : len * ((100 : ℝ) + 25) / (100 + 25) = len := by
      rw [mul_div_assoc]
      norm_num
    rw [heq]
    exact hlen
  exact ⟨hW, hSE, hDir, hShape, hLen⟩

/-- A matching forward-only pass implies the distance criterion held. -/
theorem getMatchDataNB_within (points : List Point) (stroke : Stroke)
    (len : ℝ) (o : Bool)
    (h : (getMatchDataNB points stroke len o).isMatch = true) :
    withinDistThresh (stroke.getAverageDistance points) stroke o len := by
  by_contra hc
  simp only [getMatchDataNB] at h
  rw [if_pos (by simp [decide_eq_false hc])] at h
  simp at h

/-- Once the distance criterion holds, the `isMatch` field returned by
`getMatchData` is the five-criteria conjunction, whatever the backwardness
retry does. -/
theorem getMatchData_isMatch_of_within (points : List Point) (stroke : Stroke)
    (lopt : Option ℝ) (oopt cbopt : Option Bool)
    (hW : withinDistThresh (stroke.getAverageDistance points) stroke
      (oopt.getD false) (lopt.getD 1)) :
    (getMatchData points stroke ⟨lopt, oopt, cbopt⟩).isMatch =
      matchConj points stroke (lopt.getD 1) (oopt.getD false)
        (stroke.getAverageDistance points) := by
  simp only [getMatchData]
  rw [if_neg (by simp [decide_eq_true hW])]
  split
  · split
    · rfl
    · rfl
  · rfl

/-- The backwardness retry case of `getMatchData`: distance criterion holds,
the forward conjunction fails, `checkBackwards` is on, and the reversed
forward-only pass matches; the result keeps the forward `isMatch` (false)
but reports `isStrokeBackwards`. -/
theorem getMatchData_backwards (points : List Point) (stroke : Stroke)
    (lopt : Option ℝ) (oopt cbopt : Option Bool)
    (hW : withinDistThresh (stroke.getAverageDistance points) stroke
      (oopt.getD false) (lopt.getD 1))
    (hcb : cbopt.getD true = true)
    (hconj : matchConj points stroke (lopt.getD 1) (oopt.getD false)
      (stroke.getAverageDistance points) = false)
    (hbwd : (getMatchDataNB points.reverse stroke (lopt.getD 1)
      (oopt.getD false)).isMatch = true) :
    getMatchData points stroke ⟨lopt, oopt, cbopt⟩ =
      ⟨false, stroke.getAverageDistance points, ⟨true⟩⟩ := by
  simp only [getMatchData]
  rw [if_neg (by simp [decide_eq_true hW])]
  rw [if_pos ⟨hcb, hconj⟩, if_pos hbwd, hconj]

/-- Matching the horizontal segment against itself succeeds for any
leniency of at least the length threshold. -/
theorem hseg_getMatchData (a c : ℝ) (path : String) (n : ℕ) (rad : Bool)
    (opts : MatchOptions) (hlen : 0.35 ≤ opts.leniency.getD 1) :
    getMatchData [⟨a, c⟩, ⟨a + 100, c⟩] ⟨path, [⟨a, c⟩, ⟨a + 100, c⟩], n, rad⟩
      opts = ⟨true, 0, ⟨false⟩⟩ := by
  rw [getMatchData_of_all _ _ opts
    (hseg_matchConj a c (opts.leniency.getD 1) path n rad
      (opts.isOutlineVisible.getD false) hlen), hseg_avgDist]

/-- The forward-only variant of the self-match evaluation. -/
theorem hseg_getMatchDataNB (a c len : ℝ) (path : String) (n : ℕ) (rad : Bool)
    (o : Bool) (hlen : 0.35 ≤ len) :
    getMatchDataNB [⟨a, c⟩, ⟨a + 100, c⟩] ⟨path, [⟨a, c⟩, ⟨a + 100, c⟩], n, rad⟩
      len o = ⟨true, 0, ⟨false⟩⟩ := by
  rw [getMatchDataNB_of_all _ _ len o (hseg_matchConj a c len path n rad o hlen),
    hseg_avgDist]

/-! ## Concrete reversed-stroke evaluation (fixtures for C1) -/

theorem distance_o_h : distance (⟨0, 0⟩ : Point) ⟨100, 0⟩ = 100 := by
  have h := distance_hseg 0 0
  norm_num at h
  exact h

theorem distance_h_o : distance (⟨100, 0⟩ : Point) ⟨0, 0⟩ = 100 := by
  have h := distance_hseg_swap 0 0
  norm_num at h
  exact h

theorem strokeH_avg_rev :
    strokeH.getAverageDistance [⟨100, 0⟩, ⟨0, 0⟩] = 0 := by
  have h1 : strokeH.getDistance ⟨100, 0⟩ = 0 := by
    simp only [strokeH, Stroke.getDistance, List.map_cons, List.map_nil,
      distance_self, distance_o_h]
    exact listMinD_pair_right (by norm_num)
  have h2 : strokeH.getDistance ⟨0, 0⟩ = 0 := by
    simp only [strokeH, Stroke.getDistance, List.map_cons, List.map_nil,
      distance_self, distance_h_o]
    exact listMinD_pair_left (by norm_num)
  simp [Stroke.getAverageDistance, h1, h2]

theorem subtract_o_h : subtract (⟨0, 0⟩ : Point) ⟨100, 0⟩ = ⟨-100, 0⟩ := by
  unfold subtract
  ext <;> norm_num

theorem subtract_h_o : subtract (⟨100, 0⟩ : Point) ⟨0, 0⟩ = ⟨100, 0⟩ := by
  unfold subtract
  ext <;> norm_num

theorem cosineSimilarity_h_rev :
    cosineSimilarity (⟨100, 0⟩ : Point) ⟨-100, 0⟩ = -1 := by
  simp only [cosineSimilarity]
  have hm1 : Real.sqrt ((100 : ℝ) ^ 2 + 0 ^ 2) = 100 := by
    rw [show (100 : ℝ) ^ 2 + 0 ^ 2 = 10000 by norm_num, sqrt_ten_thousand]
  have hm2 : Real.sqrt ((-100 : ℝ) ^ 2 + 0 ^ 2) = 100 := by
    rw [show (-100 : ℝ) ^ 2 + 0 ^ 2 = 10000 by norm_num, sqrt_ten_thousand]
  rw [if_neg (by rw [hm1, hm2]; norm_num)]
  rw [hm1, hm2]
  norm_num

theorem directionMatches_rev_false :
    ¬ directionMatches [(⟨100, 0⟩ : Point), ⟨0, 0⟩] strokeH := by
  unfold directionMatches COSINE_SIMILARITY_THRESHOLD
  simp only [strokeH, getEdgeVectors, Stroke.getVectors, List.tail_cons,
    List.zip_cons_cons, List.zip_nil_right, List.map_cons, List.map_nil,
    subtract_o_h, subtract_h_o, cosineSimilarity_h_rev, listMaxD,
    List.foldl_nil]
  simp [average]

theorem matchConj_rev_false :
    matchConj [(⟨100, 0⟩ : Point), ⟨0, 0⟩] strokeH 1 false
      (strokeH.getAverageDistance [⟨100, 0⟩, ⟨0, 0⟩]) = false := by
  simp only [matchConj, decide_eq_false directionMatches_rev_false,
    Bool.and_false, Bool.false_and]

theorem strokeH_within_rev :
    withinDistThresh (strokeH.getAverageDistance [⟨100, 0⟩, ⟨0, 0⟩]) strokeH
      false 1 := by
  rw [strokeH_avg_rev]
  unfold withinDistThresh AVG_DIST_THRESHOLD
  have hd := distMod_pos strokeH false
  nlinarith

theorem getMatchDataNB_h_self :
    getMatchDataNB [(⟨0, 0⟩ : Point), ⟨100, 0⟩] strokeH 1 false =
      ⟨true, 0, ⟨false⟩⟩ := by
  have h := hseg_getMatchDataNB 0 0 1 "p" 0 false false (by norm_num)
  norm_num at h
  exact h

/-- The full evaluation of `getMatchData` on the exactly-reversed horizontal
stroke with default options: forward fails (direction is opposite), the
reversed retry matches, and the result is `isMatch = false` with
`isStrokeBackwards = true`. -/
theorem getMatchData_rev_eval :
    getMatchData [(⟨100, 0⟩ : Point), ⟨0, 0⟩] strokeH ⟨none, none, none⟩ =
      ⟨false, 0, ⟨true⟩⟩ := by
  have h := getMatchData_backwards [(⟨100, 0⟩ : Point), ⟨0, 0⟩] strokeH
    none none none strokeH_within_rev rfl matchConj_rev_false
    (by
      show (getMatchDataNB ([(⟨100, 0⟩ : Point), ⟨0, 0⟩]).reverse strokeH
        1 false).isMatch = true
      rw [show ([(⟨100, 0⟩ : Point), ⟨0, 0⟩]).reverse =
        [(⟨0, 0⟩ : Point), ⟨100, 0⟩] from rfl]
      rw [getMatchDataNB_h_self])
  rw [h, strokeH_avg_rev]

theorem equals_o_h_false : equals (⟨0, 0⟩ : Point) ⟨100, 0⟩ = false := by
  apply decide_eq_false
  rintro ⟨h, -⟩
  norm_num at h

theorem stripDuplicates_rev :
    stripDuplicates [(⟨100, 0⟩ : Point), ⟨0, 0⟩] = [⟨100, 0⟩, ⟨0, 0⟩] := by
  simp only [stripDuplicates]
  rw [if_neg (by simp)]
  simp [stripDuplicatesGo, equals_o_h_false]

/-! ## Claim theorems -/

/-- C9: for every positioner with nonzero scale, the inverse affine map
`q -> (q.x * scale + xOffset, height - yOffset - q.y * scale)` undoes
`convertExternalPoint` exactly. -/
theorem positioner_inverse_roundtrip (pos : Positioner) (p : Point)
    (h : pos.scale ≠ 0) :
    inverseExternalMap pos (convertExternalPoint pos p) = p := by
  ext
  · simp only [inverseExternalMap, convertExternalPoint]
    field_simp
  · simp only [inverseExternalMap, convertExternalPoint]
    field_simp

/-- The module-level positioner (300x300, padding 0) has scale 75/256. -/
theorem positionerHW_scale : positionerHW.scale = 75 / 256 := by
  simp only [positionerHW, mkPositioner, preScaledWidth, preScaledHeight,
    boundsFrom, boundsTo]
  norm_num

/-- Witness for C9 at the module-level positioner and the point (1, 2). -/
theorem positioner_inverse_roundtrip_witness :
    positionerHW.scale ≠ 0 ∧
      inverseExternalMap positionerHW (convertExternalPoint positionerHW ⟨1, 2⟩) =
        (⟨1, 2⟩ : Point) := by
  have h : positionerHW.scale ≠ 0 := by rw [positionerHW_scale]; norm_num
  exact ⟨h, positioner_inverse_roundtrip positionerHW ⟨1, 2⟩ h⟩

/-- C7: for a loaded character with at least one stroke, `start` always
succeeds and activates the quiz at `quizStartStrokeNum` (with the JS
`|| 0` default) clamped into `[0, strokeCount - 1]`, with empty mistakes. -/
theorem quiz_start_clamps (char : Character) (st : QuizState)
    (params : StartQuizParams) (h : 1 ≤ char.strokes.length) :
    start (some char) st params =
      { st with active := true,
                index :=
                  (if jsOrInt params.quizStartStrokeNum 0 < 0 then 0
                   else if (char.strokes.length : ℤ) - 1 < jsOrInt params.quizStartStrokeNum 0 then
                     char.strokes.length - 1
                   else (jsOrInt params.quizStartStrokeNum 0).toNat),
                mistakes := [], params := some params } := by
  have hN : 1 ≤ (char.strokes.length : ℤ) := by exact_mod_cast h
  have key : (max (min (jsOrInt params.quizStartStrokeNum 0)
        ((char.strokes.length : ℤ) - 1)) 0).toNat =
      (if jsOrInt params.quizStartStrokeNum 0 < 0 then 0
       else if (char.strokes.length : ℤ) - 1 < jsOrInt params.quizStartStrokeNum 0 then
         char.strokes.length - 1
       else (jsOrInt params.quizStartStrokeNum 0).toNat) := by
    set q := jsOrInt params.quizStartStrokeNum 0 with hq
    split
    · omega
    · split
      · omega
      · omega
  simp only [start, key]

/-- Witness for C7: starting the one-stroke character at stroke number 5
clamps to index 0 (= strokeCount - 1), with empty mistakes. -/
theorem quiz_start_clamps_witness :
    1 ≤ charYi.strokes.length ∧
      start (some charYi)
          ⟨false, "yi", 0, [], none⟩
          ⟨none, some 5, none, none⟩ =
        ⟨true, "yi", 0, [], some ⟨none, some 5, none, none⟩⟩ := by
  have h : 1 ≤ charYi.strokes.length := by simp [charYi]
  refine ⟨h, ?_⟩
  have := quiz_start_clamps charYi ⟨false, "yi", 0, [], none⟩
    ⟨none, some 5, none, none⟩ h
  rw [this]
  simp [charYi, jsOrInt]

/-- C10: whenever the stored quiz params leave `leniency` unset or set it to
0, `check` grades with leniency 1.2 (the JS `params?.leniency || 1.2`),
not 1. -/
theorem check_default_leniency (char : Character) (st : QuizState)
    (h : st.params.bind StartQuizParams.leniency = none ∨
         st.params.bind StartQuizParams.leniency = some 0) :
    checkLeniency st.params = 1.2 ∧
      ∀ first rest, check (some char) st (first :: rest) =
        some (checkCore char st first rest 1.2) := by
  have hl : checkLeniency st.params = 1.2 := by
    rcases h with h | h <;> simp [checkLeniency, jsOrNum, h]
  exact ⟨hl, fun first rest => by simp [check, hl]⟩

/-- Witness for C10 at an inactive state with no params. -/
theorem check_default_leniency_witness :
    checkLeniency (QuizState.params ⟨false, "yi", 0, [], none⟩) = 1.2 ∧
      ∀ first rest, check (some charYi) ⟨false, "yi", 0, [], none⟩ (first :: rest) =
        some (checkCore charYi ⟨false, "yi", 0, [], none⟩ first rest 1.2) :=
  check_default_leniency charYi ⟨false, "yi", 0, [], none⟩ (Or.inl rfl)

/-- The deduplication short-circuit of `strokeMatches`. -/
theorem strokeMatches_short_eval (userStroke : UserStroke) (char : Character)
    (strokeNum : ℕ) (options : StrokeMatchOptions)
    (h : (stripDuplicates userStroke.points).length < 2) :
    strokeMatches userStroke char strokeNum options = ⟨false, ⟨false⟩⟩ := by
  simp only [strokeMatches]
  rw [if_pos h]

/-- C8: `strokeMatches` is total, and whenever fewer than two points remain
after deduplication it reports no match and not backwards. -/
theorem strokeMatches_degenerate (userStroke : UserStroke) (char : Character)
    (strokeNum : ℕ) (options : StrokeMatchOptions)
    (h : (stripDuplicates userStroke.points).length < 2) :
    strokeMatches userStroke char strokeNum options = ⟨false, ⟨false⟩⟩ :=
  strokeMatches_short_eval userStroke char strokeNum options h

/-- Witness for C8 on a single-point user stroke. -/
theorem strokeMatches_degenerate_witness :
    (stripDuplicates [(⟨0, 0⟩ : Point)]).length < 2 ∧
      strokeMatches ⟨0, [⟨0, 0⟩], [⟨0, 0⟩]⟩ charYi 0 ⟨none, none⟩ =
        ⟨false, ⟨false⟩⟩ := by
  have h : (stripDuplicates [(⟨0, 0⟩ : Point)]).length < 2 := by
    simp [stripDuplicates]
  exact ⟨h, strokeMatches_degenerate ⟨0, [⟨0, 0⟩], [⟨0, 0⟩]⟩ charYi 0 ⟨none, none⟩ h⟩

/-- C1 (amended): with at least 2 deduplicated points and a forward
`getMatchData` non-match whose reversed re-evaluation (with
`checkBackwards = false`) matches, the returned result reports
`isStrokeBackwards = true` but keeps the forward `isMatch = false` (the
original claim wrongly expects `isMatch = true`). -/
theorem strokeMatches_backwards_flag (us : UserStroke) (char : Character)
    (strokeNum : ℕ) (options : StrokeMatchOptions)
    (hlen2 : 2 ≤ (stripDuplicates us.points).length)
    (h1 : (getMatchData (stripDuplicates us.points)
        (char.strokes.getD strokeNum defaultStroke)
        ⟨options.leniency, options.isOutlineVisible, none⟩).isMatch = false)
    (h2 : (getMatchData (stripDuplicates us.points).reverse
        (char.strokes.getD strokeNum defaultStroke)
        ⟨options.leniency, options.isOutlineVisible, some false⟩).isMatch = true) :
    strokeMatches us char strokeNum options = ⟨false, ⟨true⟩⟩ := by
  have hNB : (getMatchDataNB (stripDuplicates us.points).reverse
      (char.strokes.getD strokeNum defaultStroke)
      (options.leniency.getD 1) (options.isOutlineVisible.getD false)).isMatch = true := by
    rw [← getMatchData_cb_false]
    exact h2
  have hWrev := getMatchDataNB_within _ _ _ _ hNB
  rw [getAverageDistance_reverse] at hWrev
  have hconj := getMatchData_isMatch_of_within (stripDuplicates us.points)
    (char.strokes.getD strokeNum defaultStroke) options.leniency
    options.isOutlineVisible none hWrev
  rw [h1] at hconj
  have hfull := getMatchData_backwards (stripDuplicates us.points)
    (char.strokes.getD strokeNum defaultStroke) options.leniency
    options.isOutlineVisible none hWrev rfl hconj.symm hNB
  simp only [strokeMatches]
  rw [if_neg (by omega)]
  rw [hfull]
  simp

/-- C1 counterexample: the horizontal stroke drawn in exact reverse order
satisfies all the claim's hypotheses (2 deduplicated points, forward
non-match, reversed match), yet both `getMatchData` and `strokeMatches`
return `isMatch = false` (with `isStrokeBackwards = true`), refuting the
claimed `isMatch = true`. -/
theorem strokeMatches_backwards_counterexample :
    2 ≤ (stripDuplicates [(⟨100, 0⟩ : Point), ⟨0, 0⟩]).length ∧
      (getMatchData (stripDuplicates [(⟨100, 0⟩ : Point), ⟨0, 0⟩]) strokeH
        ⟨none, none, none⟩).isMatch = false ∧
      (getMatchData (stripDuplicates [(⟨100, 0⟩ : Point), ⟨0, 0⟩]).reverse
        strokeH ⟨none, none, some false⟩).isMatch = true ∧
      strokeMatches ⟨0, [⟨100, 0⟩, ⟨0, 0⟩], []⟩ charYi 0 ⟨none, none⟩ =
        ⟨false, ⟨true⟩⟩ := by
  refine ⟨?_, ?_, ?_, ?_⟩
  · rw [stripDuplicates_rev]
    simp
  · rw [stripDuplicates_rev, getMatchData_rev_eval]
  · rw [stripDuplicates_rev]
    rw [show ([(⟨100, 0⟩ : Point), ⟨0, 0⟩]).reverse =
      [(⟨0, 0⟩ : Point), ⟨100, 0⟩] from rfl]
    rw [getMatchData_cb_false]
    show (getMatchDataNB [(⟨0, 0⟩ : Point), ⟨100, 0⟩] strokeH 1 false).isMatch = true
    rw [getMatchDataNB_h_self]
  · simp only [strokeMatches]
    rw [stripDuplicates_rev]
    rw [if_neg (by simp)]
    rw [show Character.strokes charYi = [strokeH] from rfl]
    rw [show List.getD [strokeH] 0 defaultStroke = strokeH from rfl]
    rw [getMatchData_rev_eval]
    simp

/-- Witness for the C1 theorem on the concrete reversed horizontal stroke. -/
theorem strokeMatches_backwards_flag_witness :
    strokeMatches ⟨7, [⟨100, 0⟩, ⟨0, 0⟩], []⟩ charYi 0 ⟨none, none⟩ =
      ⟨false, ⟨true⟩⟩ := by
  apply strokeMatches_backwards_flag
  · show 2 ≤ (stripDuplicates [(⟨100, 0⟩ : Point), ⟨0, 0⟩]).length
    rw [stripDuplicates_rev]
    simp
  · show (getMatchData (stripDuplicates [(⟨100, 0⟩ : Point), ⟨0, 0⟩]) strokeH
      ⟨none, none, none⟩).isMatch = false
    rw [stripDuplicates_rev, getMatchData_rev_eval]
  · show (getMatchData (stripDuplicates [(⟨100, 0⟩ : Point), ⟨0, 0⟩]).reverse
      strokeH ⟨none, none, some false⟩).isMatch = true
    rw [stripDuplicates_rev]
    rw [show ([(⟨100, 0⟩ : Point), ⟨0, 0⟩]).reverse =
      [(⟨0, 0⟩ : Point), ⟨100, 0⟩] from rfl]
    rw [getMatchData_cb_false]
    show (getMatchDataNB [(⟨0, 0⟩ : Point), ⟨100, 0⟩] strokeH 1 false).isMatch = true
    rw [getMatchDataNB_h_self]

/-! ## Lemmas about the closest-later-match fold (for C6) -/

/-- Every return path of `getMatchData` carries the average distance. -/
theorem getMatchData_avgDist (points : List Point) (stroke : Stroke)
    (opts : MatchOptions) :
    (getMatchData points stroke opts).avgDist =
      stroke.getAverageDistance points := by
  simp only [getMatchData]
  split
  · rfl
  · split
    · split
      · rfl
      · rfl
    · rfl

theorem closestMatchDist_cons (points : List Point) (s : Stroke)
    (t : List Stroke) (options : StrokeMatchOptions) (start : ℝ) :
    closestMatchDist points (s :: t) options start =
      closestMatchDist points t options
        (if (getMatchData points s
              ⟨options.leniency, options.isOutlineVisible, some false⟩).isMatch = true ∧
            (getMatchData points s
              ⟨options.leniency, options.isOutlineVisible, some false⟩).avgDist < start
         then (getMatchData points s
              ⟨options.leniency, options.isOutlineVisible, some false⟩).avgDist
         else start) := by
  simp only [closestMatchDist, List.foldl_cons]

theorem closestMatchDist_le_start (points : List Point) (l : List Stroke)
    (options : StrokeMatchOptions) (start : ℝ) :
    closestMatchDist points l options start ≤ start := by
  induction l generalizing start with
  | nil => exact le_refl start
  | cons s t ih =>
    rw [closestMatchDist_cons]
    refine (ih _).trans ?_
    split
    · next h => exact h.2.le
    · exact le_refl start

theorem closestMatchDist_le_of_match (points : List Point) (l : List Stroke)
    (options : StrokeMatchOptions) (start : ℝ) (s : Stroke) (hs : s ∈ l)
    (hm : (getMatchData points s
      ⟨options.leniency, options.isOutlineVisible, some false⟩).isMatch = true) :
    closestMatchDist points l options start ≤
      (getMatchData points s
        ⟨options.leniency, options.isOutlineVisible, some false⟩).avgDist := by
  induction l generalizing start with
  | nil => cases hs
  | cons a t ih =>
    rw [closestMatchDist_cons]
    rcases List.mem_cons.mp hs with rfl | hs'
    · refine (closestMatchDist_le_start points t options _).trans ?_
      split
      · exact le_refl _
      · next h =>
        push_neg at h
        exact h hm
    · exact ih _ hs'

theorem closestMatchDist_cases (points : List Point) (l : List Stroke)
    (options : StrokeMatchOptions) (start : ℝ) :
    closestMatchDist points l options start = start ∨
      ∃ s ∈ l, (getMatchData points s
          ⟨options.leniency, options.isOutlineVisible, some false⟩).isMatch = true ∧
        closestMatchDist points l options start =
          (getMatchData points s
            ⟨options.leniency, options.isOutlineVisible, some false⟩).avgDist := by
  induction l generalizing start with
  | nil => exact Or.inl rfl
  | cons a t ih =>
    rw [closestMatchDist_cons]
    rcases ih (if (getMatchData points a
        ⟨options.leniency, options.isOutlineVisible, some false⟩).isMatch = true ∧
        (getMatchData points a
          ⟨options.leniency, options.isOutlineVisible, some false⟩).avgDist < start
      then (getMatchData points a
          ⟨options.leniency, options.isOutlineVisible, some false⟩).avgDist
      else start) with h | ⟨s, hsmem, hsm, heq⟩
    · rw [h]
      split
      · next hc => exact Or.inr ⟨a, List.mem_cons_self a t, hc.1, rfl⟩
      · exact Or.inl rfl
    · exact Or.inr ⟨s, List.mem_cons_of_mem a hsmem, hsm, heq⟩

theorem closestMatchDist_nonneg (points : List Point) (l : List Stroke)
    (options : StrokeMatchOptions) (start : ℝ) (hstart : 0 ≤ start) :
    0 ≤ closestMatchDist points l options start := by
  rcases closestMatchDist_cases points l options start with h | ⟨s, _, _, heq⟩
  · rw [h]; exact hstart
  · rw [heq, getMatchData_avgDist]
    exact getAverageDistance_nonneg s points

/-! ## Concrete fixtures for the better-later-match scenario -/

theorem subtract_self_pt (p : Point) : subtract p p = ⟨0, 0⟩ := by
  unfold subtract
  ext <;> simp

theorem plength_oh : plength [(⟨0, 0⟩ : Point), ⟨100, 0⟩] = 100 := by
  have h := plength_hseg 0 0
  norm_num at h
  exact h

theorem listMinD_pair (x y : ℝ) : listMinD [x, y] = min x y := by
  simp [listMinD]

theorem sqrt_twentyfive_hundred : Real.sqrt 2500 = 50 := by
  rw [show (2500 : ℝ) = 50 ^ 2 by norm_num, Real.sqrt_sq (by norm_num)]

theorem sqrt_diag_ge : (50 : ℝ) ≤ Real.sqrt 12500 := by
  rw [show (50 : ℝ) = Real.sqrt 2500 from sqrt_twentyfive_hundred.symm]
  exact Real.sqrt_le_sqrt (by norm_num)

theorem distance_vert (x : ℝ) : distance ⟨x, 0⟩ ⟨x, 50⟩ = 50 := by
  simp only [distance]
  rw [show (x - x) ^ 2 + ((0 : ℝ) - 50) ^ 2 = 2500 by ring, sqrt_twentyfive_hundred]

theorem distance_diag_a : distance (⟨100, 0⟩ : Point) ⟨0, 50⟩ = Real.sqrt 12500 := by
  simp only [distance]
  norm_num

theorem distance_diag_b : distance (⟨0, 0⟩ : Point) ⟨100, 50⟩ = Real.sqrt 12500 := by
  simp only [distance]
  norm_num

theorem strokeH_avg_mid :
    strokeH.getAverageDistance [⟨0, 50⟩, ⟨100, 50⟩] = 50 := by
  have h1 : strokeH.getDistance ⟨0, 50⟩ = 50 := by
    simp only [strokeH, Stroke.getDistance, List.map_cons, List.map_nil,
      distance_vert 0, distance_diag_a]
    rw [listMinD_pair]
    exact min_eq_left sqrt_diag_ge
  have h2 : strokeH.getDistance ⟨100, 50⟩ = 50 := by
    simp only [strokeH, Stroke.getDistance, List.map_cons, List.map_nil,
      distance_vert 100, distance_diag_b]
    rw [listMinD_pair]
    exact min_eq_right sqrt_diag_ge
  simp only [Stroke.getAverageDistance, List.map_cons, List.map_nil, h1, h2]
  norm_num

theorem normalizeCurve_hseg (a c : ℝ) :
    normalizeCurve [⟨a, c⟩, ⟨a + 100, c⟩] = [⟨0, 0⟩, ⟨1, 0⟩] := by
  simp only [normalizeCurve, List.headD_cons, List.map_cons, List.map_nil,
    subtract_self_pt, subtract_hseg]
  rw [plength_oh]
  norm_num [Point.ext_iff]

theorem normalizeCurve_mid_eq :
    normalizeCurve [(⟨0, 50⟩ : Point), ⟨100, 50⟩] =
      normalizeCurve [(⟨0, 0⟩ : Point), ⟨100, 0⟩] := by
  have h1 := normalizeCurve_hseg 0 50
  have h2 := normalizeCurve_hseg 0 0
  norm_num at h1 h2
  rw [h1, h2]

theorem shapeFit_of_norm_eq (c1 c2 : List Point) (leniency : ℝ)
    (h : normalizeCurve c1 = normalizeCurve c2) (hlen : 0 ≤ leniency) :
    shapeFit c1 c2 leniency := by
  unfold shapeFit
  have hmem : frechetDist (normalizeCurve c1) (rotate (normalizeCurve c2) 0) ∈
      shapeFitThetas.map fun theta =>
        frechetDist (normalizeCurve c1) (rotate (normalizeCurve c2) theta) := by
    apply List.mem_map_of_mem
    simp [shapeFitThetas]
  have hzero : frechetDist (normalizeCurve c1) (rotate (normalizeCurve c2) 0) = 0 := by
    rw [rotate_zero, ← h]
    exact frechetDist_self _
  have hle := listMinD_le_of_mem hmem
  rw [hzero] at hle
  have hthr : (0 : ℝ) ≤ FRECHET_THRESHOLD * leniency := by
    unfold FRECHET_THRESHOLD
    positivity
  linarith

theorem matchConj_mid :
    matchConj [(⟨0, 50⟩ : Point), ⟨100, 50⟩] strokeH 1 false
      (strokeH.getAverageDistance [⟨0, 50⟩, ⟨100, 50⟩]) = true := by
  rw [matchConj_eq_true, strokeH_avg_mid]
  refine ⟨?_, ?_, ?_, ?_, ?_⟩
  · unfold withinDistThresh AVG_DIST_THRESHOLD
    rw [show distMod strokeH false = 1 from by simp [distMod, strokeH]]
    norm_num
  · unfold startAndEndMatches START_AND_END_DIST_THRESHOLD
    constructor
    · simp only [Stroke.getStartingPoint, strokeH, List.headD_cons,
        distance_vert 0]
      norm_num
    · have hlast : List.getLastD [(⟨0, 50⟩ : Point), ⟨100, 50⟩] ⟨0, 0⟩ = ⟨100, 50⟩ := rfl
      have hlast2 : List.getLastD [(⟨0, 0⟩ : Point), ⟨100, 0⟩] ⟨0, 0⟩ = ⟨100, 0⟩ := rfl
      simp only [Stroke.getEndingPoint, strokeH, hlast, hlast2]
      rw [distance_vert 100]
      norm_num
  · unfold directionMatches COSINE_SIMILARITY_THRESHOLD
    have hs : subtract (⟨100, 50⟩ : Point) ⟨0, 50⟩ = ⟨100, 0⟩ := by
      unfold subtract
      ext <;> norm_num
    simp only [strokeH, getEdgeVectors, Stroke.getVectors, List.tail_cons,
      List.zip_cons_cons, List.zip_nil_right, List.map_cons, List.map_nil,
      hs, subtract_h_o, cosineSimilarity_h100, listMaxD, List.foldl_nil]
    simp [average]
  · refine shapeFit_of_norm_eq _ _ 1 ?_ (by norm_num)
    show normalizeCurve [(⟨0, 50⟩ : Point), ⟨100, 50⟩] =
      normalizeCurve [(⟨0, 0⟩ : Point), ⟨100, 0⟩]
    exact normalizeCurve_mid_eq
  · unfold lengthMatches MIN_LEN_THRESHOLD Stroke.getLength
    have hp1 : plength [(⟨0, 50⟩ : Point), ⟨100, 50⟩] = 100 := by
      have h := plength_hseg 0 50
      norm_num at h
      exact h
    rw [show Stroke.points strokeH = [(⟨0, 0⟩ : Point), ⟨100, 0⟩] from rfl]
    rw [hp1, plength_oh]
    norm_num

theorem one_mid_eval :
    getMatchData [(⟨0, 50⟩ : Point), ⟨100, 50⟩] strokeH ⟨none, none, none⟩ =
      ⟨true, 50, ⟨false⟩⟩ := by
  rw [getMatchData_of_all _ _ ⟨none, none, none⟩ matchConj_mid, strokeH_avg_mid]

theorem later_mid_eval :
    getMatchData [(⟨0, 50⟩ : Point), ⟨100, 50⟩] strokeH50 ⟨none, none, some false⟩ =
      ⟨true, 0, ⟨false⟩⟩ := by
  rw [getMatchData_cb_false]
  show getMatchDataNB [(⟨0, 50⟩ : Point), ⟨100, 50⟩] strokeH50 1 false =
    ⟨true, 0, ⟨false⟩⟩
  have h := hseg_getMatchDataNB 0 50 1 "q" 1 false false (by norm_num)
  norm_num at h
  exact h

theorem closest_mid :
    closestMatchDist [(⟨0, 50⟩ : Point), ⟨100, 50⟩] [strokeH50] ⟨none, none⟩ 50 =
      0 := by
  rw [closestMatchDist_cons]
  dsimp only
  rw [later_mid_eval]
  rw [if_pos ⟨rfl, by norm_num⟩]
  simp [closestMatchDist]

/-- C6: when the forward match at `strokeIndex` succeeds with positive
average distance and some later stroke matches (without backwardness
checking) at a strictly smaller average distance, `strokeMatches` returns
the re-evaluation of `strokeIndex` at leniency multiplied by
`0.6 * (closestBetterDist + avgDist) / (2 * avgDist)`, where
`closestBetterDist` is the minimum matching later average distance, and the
multiplier lies in `[0.3, 0.6]`. -/
theorem strokeMatches_better_later (us : UserStroke) (char : Character)
    (strokeNum : ℕ) (options : StrokeMatchOptions)
    (P : List Point) (hP : P = stripDuplicates us.points)
    (S : Stroke) (hS : S = char.strokes.getD strokeNum defaultStroke)
    (one : MatchData)
    (hone : one = getMatchData P S ⟨options.leniency, options.isOutlineVisible, none⟩)
    (closest : ℝ)
    (hclosest : closest =
      closestMatchDist P (char.strokes.drop (strokeNum + 1)) options one.avgDist)
    (hlen2 : 2 ≤ P.length)
    (hmatch : one.isMatch = true)
    (hpos : 0 < one.avgDist)
    (hbetter : ∃ s ∈ char.strokes.drop (strokeNum + 1),
      (getMatchData P s
        ⟨options.leniency, options.isOutlineVisible, some false⟩).isMatch = true ∧
      (getMatchData P s
        ⟨options.leniency, options.isOutlineVisible, some false⟩).avgDist < one.avgDist) :
    (0.3 ≤ 0.6 * (closest + one.avgDist) / (2 * one.avgDist) ∧
      0.6 * (closest + one.avgDist) / (2 * one.avgDist) ≤ 0.6) ∧
    (∀ s ∈ char.strokes.drop (strokeNum + 1),
      (getMatchData P s
        ⟨options.leniency, options.isOutlineVisible, some false⟩).isMatch = true →
      closest ≤ (getMatchData P s
        ⟨options.leniency, options.isOutlineVisible, some false⟩).avgDist) ∧
    (∃ s ∈ char.strokes.drop (strokeNum + 1),
      (getMatchData P s
        ⟨options.leniency, options.isOutlineVisible, some false⟩).isMatch = true ∧
      (getMatchData P s
        ⟨options.leniency, options.isOutlineVisible, some false⟩).avgDist = closest) ∧
    strokeMatches us char strokeNum options =
      ⟨(getMatchData P S
          ⟨some (jsOrNum options.leniency 1 *
            (0.6 * (closest + one.avgDist) / (2 * one.avgDist))),
           options.isOutlineVisible, none⟩).isMatch,
       (getMatchData P S
          ⟨some (jsOrNum options.leniency 1 *
            (0.6 * (closest + one.avgDist) / (2 * one.avgDist))),
           options.isOutlineVisible, none⟩).meta⟩ := by
  obtain ⟨s0, hs0mem, hs0match, hs0lt⟩ := hbetter
  have hclt : closest < one.avgDist := by
    rw [hclosest]
    exact lt_of_le_of_lt
      (closestMatchDist_le_of_match P (char.strokes.drop (strokeNum + 1))
        options one.avgDist s0 hs0mem hs0match) hs0lt
  have hc0 : 0 ≤ closest := by
    rw [hclosest]
    exact closestMatchDist_nonneg P (char.strokes.drop (strokeNum + 1))
      options one.avgDist hpos.le
  have h2pos : (0 : ℝ) < 2 * one.avgDist := by linarith
  refine ⟨⟨?_, ?_⟩, ?_, ?_, ?_⟩
  · rw [le_div_iff₀ h2pos]
    linarith
  · rw [div_le_iff₀ h2pos]
    linarith
  · intro s hs hm
    rw [hclosest]
    exact closestMatchDist_le_of_match P (char.strokes.drop (strokeNum + 1))
      options one.avgDist s hs hm
  · rcases closestMatchDist_cases P (char.strokes.drop (strokeNum + 1))
        options one.avgDist with h | ⟨s, hsmem, hsm, heq⟩
    · rw [← hclosest] at h
      exact absurd h (ne_of_lt hclt)
    · rw [← hclosest] at heq
      exact ⟨s, hsmem, hsm, heq.symm⟩
  · subst hP hS hone
    rw [hclosest] at hclt
    rw [hclosest]
    simp only [strokeMatches]
    rw [if_neg (by omega)]
    rw [if_neg (by rw [hmatch]; simp)]
    rw [if_pos hclt]

theorem equals_mid_false : equals (⟨100, 50⟩ : Point) ⟨0, 50⟩ = false := by
  apply decide_eq_false
  rintro ⟨h, -⟩
  norm_num at h

theorem stripDuplicates_mid :
    stripDuplicates [(⟨0, 50⟩ : Point), ⟨100, 50⟩] = [⟨0, 50⟩, ⟨100, 50⟩] := by
  simp only [stripDuplicates]
  rw [if_neg (by simp)]
  simp [stripDuplicatesGo, equals_mid_false]

/-- Witness for C6: the user stroke tracing the second stroke of the
two-stroke character while the quiz expects the first; the forward match
succeeds at average distance 50 but the later stroke matches at distance 0,
so the result is the stricter re-evaluation with multiplier 0.3. -/
theorem strokeMatches_better_later_witness :
    strokeMatches ⟨0, [⟨0, 50⟩, ⟨100, 50⟩], []⟩ charTwo 0 ⟨none, none⟩ =
      ⟨(getMatchData [(⟨0, 50⟩ : Point), ⟨100, 50⟩] strokeH
          ⟨some (jsOrNum none 1 * (0.6 * (0 + 50) / (2 * 50))), none, none⟩).isMatch,
       (getMatchData [(⟨0, 50⟩ : Point), ⟨100, 50⟩] strokeH
          ⟨some (jsOrNum none 1 * (0.6 * (0 + 50) / (2 * 50))), none, none⟩).meta⟩ := by
  have h := strokeMatches_better_later ⟨0, [⟨0, 50⟩, ⟨100, 50⟩], []⟩ charTwo 0
    ⟨none, none⟩ [⟨0, 50⟩, ⟨100, 50⟩] stripDuplicates_mid.symm strokeH rfl
    ⟨true, 50, ⟨false⟩⟩ one_mid_eval.symm 0
    (by
      show (0 : ℝ) = closestMatchDist [(⟨0, 50⟩ : Point), ⟨100, 50⟩] [strokeH50]
        ⟨none, none⟩ 50
      exact closest_mid.symm)
    (by norm_num) rfl (by norm_num)
    ⟨strokeH50, by simp [charTwo],
      by
        show (getMatchData [(⟨0, 50⟩ : Point), ⟨100, 50⟩] strokeH50
          ⟨none, none, some false⟩).isMatch = true
        rw [later_mid_eval],
      by
        show (getMatchData [(⟨0, 50⟩ : Point), ⟨100, 50⟩] strokeH50
            ⟨none, none, some false⟩).avgDist <
          (⟨true, 50, ⟨false⟩⟩ : MatchData).avgDist
        rw [later_mid_eval]
        norm_num⟩
  exact h.2.2.2

/-! ## Quiz state machine lemmas and fixtures -/

/-- Quiz params with every option left unset. -/
def paramsNone : StartQuizParams := ⟨none, none, none, none⟩

/-- External (drawing-surface) point converting to canonical `(0, 0)`. -/
def extA : Point := ⟨0, 16875 / 64⟩

/-- External (drawing-surface) point converting to canonical `(100, 0)`. -/
def extB : Point := ⟨1875 / 64, 16875 / 64⟩

theorem convert_extA : convertExternalPoint positionerHW extA = ⟨0, 0⟩ := by
  ext <;>
    simp only [convertExternalPoint, positionerHW, mkPositioner, extA,
      preScaledWidth, preScaledHeight, boundsFrom, boundsTo] <;>
    norm_num

theorem convert_extB : convertExternalPoint positionerHW extB = ⟨100, 0⟩ := by
  ext <;>
    simp only [convertExternalPoint, positionerHW, mkPositioner, extB,
      preScaledWidth, preScaledHeight, boundsFrom, boundsTo] <;>
    norm_num

theorem convert_origin :
    convertExternalPoint positionerHW ⟨0, 0⟩ = ⟨0, 900⟩ := by
  ext <;>
    simp only [convertExternalPoint, positionerHW, mkPositioner,
      preScaledWidth, preScaledHeight, boundsFrom, boundsTo] <;>
    norm_num

/-- With `params = null` (the Inactive variant) `check` can fire no event:
both the mistake and the completion notification are guarded by
`params?.`. -/
theorem checkCore_params_none (char : Character) (st : QuizState)
    (first : Point) (rest : List Point) (leniency : ℝ)
    (hparams : st.params = none) :
    (checkCore char st first rest leniency).2 = [] := by
  simp only [checkCore, hparams]
  split
  · rfl
  · simp [ite_self]

/-- A single-point gesture is always rejected (after conversion it
deduplicates to fewer than two points), and `check` then increments the
per-stroke mistake count whatever the `active` flag says. -/
theorem checkCore_single_reject (char : Character) (st : QuizState)
    (p : Point) (leniency : ℝ) :
    checkCore char st p [] leniency =
      ({ st with mistakes :=
          setMistakes st.mistakes st.index (getMistakes st.mistakes st.index + 1) },
        match st.params with
        | none => []
        | some _ =>
          [QuizEvent.mistake
            { character := st.character
              points := [convertExternalPoint positionerHW p]
              isBackwards := false
              mistakesOnStroke := getMistakes st.mistakes st.index + 1
              strokeNum := st.index
              strokesRemaining := char.strokes.length - st.index
              totalMistakes := keysCount st.mistakes }]) := by
  simp only [checkCore, List.map_nil]
  rw [strokeMatches_short_eval _ _ _ _ (by simp [stripDuplicates])]
  simp only [Bool.false_or, Bool.false_and]
  rw [if_pos trivial]

/-- C2 (amended): `check` invoked while the quiz is `Inactive` (params is
null) emits no event; however it is not a state no-op in general — it still
grades the stroke and may mutate the store (see the counterexample). -/
theorem check_inactive_no_events (char : Character) (st : QuizState)
    (pts : List Point) (hactive : st.active = false)
    (hparams : st.params = none) (hne : pts ≠ []) :
    ∃ st', check (some char) st pts = some (st', []) := by
  obtain ⟨first, rest, rfl⟩ := List.exists_cons_of_ne_nil hne
  refine ⟨(checkCore char st first rest (checkLeniency st.params)).1, ?_⟩
  simp only [check]
  rw [← checkCore_params_none char st first rest (checkLeniency st.params) hparams]

/-- Witness for C2 at a concrete inactive state and one-point gesture. -/
theorem check_inactive_no_events_witness :
    ∃ st', check (some charYi) ⟨false, "yi", 0, [], none⟩ [⟨0, 0⟩] =
      some (st', []) :=
  check_inactive_no_events charYi ⟨false, "yi", 0, [], none⟩ [⟨0, 0⟩]
    rfl rfl (by simp)

/-- C2 counterexample: from the Inactive state with a loaded character, a
rejected one-point gesture mutates the mistakes map (no `active` guard
exists in `check`), refuting the claimed state no-op; no event fires. -/
theorem check_inactive_counterexample :
    check (some charYi) ⟨false, "yi", 0, [], none⟩ [⟨0, 0⟩] =
      some (⟨false, "yi", 0, [(0, 1)], none⟩, []) ∧
      (⟨false, "yi", 0, [(0, 1)], none⟩ : QuizState) ≠
        ⟨false, "yi", 0, [], none⟩ := by
  constructor
  · simp only [check]
    rw [checkCore_single_reject]
    simp [getMistakes, setMistakes]
  · intro h
    have h2 := congrArg QuizState.mistakes h
    simp at h2

/-- C5 (amended): on an Active quiz, a rejected stroke increments
`mistakes[index]` by one, leaves `active`, `index` and `params` untouched,
and fires one `onMistake` event whose `mistakesOnStroke` is the updated
per-stroke count and whose `totalMistakes` is the number of distinct strokes
with a recorded mistake before this call (not the cumulative count including
the current mistake). -/
theorem check_reject_event (char : Character) (st : QuizState)
    (first : Point) (rest : List Point) (prms : StartQuizParams)
    (hactive : st.active = true) (hparams : st.params = some prms)
    (r : StrokeMatchResult)
    (hr : r = strokeMatches
      ⟨st.index,
        convertExternalPoint positionerHW first ::
          rest.map (convertExternalPoint positionerHW),
        first :: rest⟩ char st.index ⟨some (checkLeniency st.params), none⟩)
    (hrej : (r.isMatch ||
      (r.meta.isStrokeBackwards && jsTruthy prms.acceptBackwardsStrokes)) = false) :
    check (some char) st (first :: rest) =
      some ({ st with
          mistakes := setMistakes st.mistakes st.index
              (getMistakes st.mistakes st.index + 1) },
        [QuizEvent.mistake
          { character := st.character
            points := convertExternalPoint positionerHW first ::
              rest.map (convertExternalPoint positionerHW)
            isBackwards := r.meta.isStrokeBackwards
            mistakesOnStroke := getMistakes st.mistakes st.index + 1
            strokeNum := st.index
            strokesRemaining := char.strokes.length - st.index
            totalMistakes := keysCount st.mistakes }]) := by
  subst hr
  rw [hparams] at hrej
  simp only [check, checkCore, hparams, Option.some_bind]
  rw [if_pos hrej]

/-- Witness for C5: a one-point gesture on an active quiz is rejected and
the event carries `mistakesOnStroke = 1`, `totalMistakes = 0`. -/
theorem check_reject_event_witness :
    check (some charYi) ⟨true, "yi", 0, [], some paramsNone⟩ [⟨0, 0⟩] =
      some (⟨true, "yi", 0, [(0, 1)], some paramsNone⟩,
        [QuizEvent.mistake ⟨"yi", [⟨0, 900⟩], false, 1, 0, 1, 0⟩]) := by
  have hr : (⟨false, ⟨false⟩⟩ : StrokeMatchResult) = strokeMatches
      ⟨(⟨true, "yi", 0, [], some paramsNone⟩ : QuizState).index,
        convertExternalPoint positionerHW ⟨0, 0⟩ ::
          List.map (convertExternalPoint positionerHW) [],
        [⟨0, 0⟩]⟩ charYi
      (⟨true, "yi", 0, [], some paramsNone⟩ : QuizState).index
      ⟨some (checkLeniency (⟨true, "yi", 0, [], some paramsNone⟩ : QuizState).params),
        none⟩ :=
    (strokeMatches_short_eval _ _ _ _ (by simp [stripDuplicates])).symm
  have h := check_reject_event charYi ⟨true, "yi", 0, [], some paramsNone⟩
    ⟨0, 0⟩ [] paramsNone rfl rfl ⟨false, ⟨false⟩⟩ hr rfl
  rw [h]
  simp [getMistakes, setMistakes, keysCount, convert_origin, charYi]

/-- C5 counterexample: on the very first mistake of a quiz the emitted
event has `totalMistakes = 0`, whereas the claim demands the cumulative
count including the current mistake (1). -/
theorem check_reject_event_counterexample :
    check (some charYi) ⟨true, "yi", 0, [], some paramsNone⟩ [⟨100, 100⟩] =
      some (⟨true, "yi", 0, [(0, 1)], some paramsNone⟩,
        [QuizEvent.mistake
          ⟨"yi", [convertExternalPoint positionerHW ⟨100, 100⟩], false, 1, 0, 1, 0⟩]) ∧
      (0 : ℕ) ≠ 1 := by
  constructor
  · simp only [check]
    rw [checkCore_single_reject]
    simp [getMistakes, setMistakes, keysCount, charYi]
  · decide

/-- C3 (amended): accepting the stroke at the last index fires exactly one
`onComplete` event (carrying the number of distinct strokes with recorded
mistakes) and moves to `Inactive` with `index = 0`; the `mistakes` mapping
is NOT cleared here — it is only reset by the next `start` or `stop`. -/
theorem check_complete (char : Character) (st : QuizState)
    (first : Point) (rest : List Point) (prms : StartQuizParams)
    (hactive : st.active = true) (hparams : st.params = some prms)
    (hlast : st.index = char.strokes.length - 1)
    (r : StrokeMatchResult)
    (hr : r = strokeMatches
      ⟨st.index,
        convertExternalPoint positionerHW first ::
          rest.map (convertExternalPoint positionerHW),
        first :: rest⟩ char st.index ⟨some (checkLeniency st.params), none⟩)
    (hacc : (r.isMatch ||
      (r.meta.isStrokeBackwards && jsTruthy prms.acceptBackwardsStrokes)) = true) :
    check (some char) st (first :: rest) =
      some ({ st with active := false, index := 0 },
        [QuizEvent.complete char.symbol (keysCount st.mistakes)]) := by
  subst hr
  rw [hparams] at hacc
  simp only [check, checkCore, hparams, Option.some_bind]
  rw [if_neg (by rw [hacc]; simp)]
  have hsa : decide (st.index < char.strokes.length - 1) = false := by
    rw [hlast]
    simp
  rw [hsa]
  simp

theorem equals_h_o_false : equals (⟨100, 0⟩ : Point) ⟨0, 0⟩ = false := by
  apply decide_eq_false
  rintro ⟨h, -⟩
  norm_num at h

theorem stripDuplicates_fwd :
    stripDuplicates [(⟨0, 0⟩ : Point), ⟨100, 0⟩] = [⟨0, 0⟩, ⟨100, 0⟩] := by
  simp only [stripDuplicates]
  rw [if_neg (by simp)]
  simp [stripDuplicatesGo, equals_h_o_false]

theorem getMatchData_h_lenient :
    getMatchData [(⟨0, 0⟩ : Point), ⟨100, 0⟩] strokeH ⟨some 1.2, none, none⟩ =
      ⟨true, 0, ⟨false⟩⟩ := by
  have hpt : (⟨(0 : ℝ) + 100, 0⟩ : Point) = ⟨100, 0⟩ := by norm_num
  have h := hseg_getMatchData 0 0 "p" 0 false ⟨some 1.2, none, none⟩
    (by norm_num [Option.getD_some])
  rw [hpt] at h
  exact h

/-- The exact trace of the single stroke is accepted by `strokeMatches` at
the quiz leniency 1.2. -/
theorem strokeMatches_exact_trace (ident : ℕ) (ext : List Point) :
    strokeMatches ⟨ident, [⟨0, 0⟩, ⟨100, 0⟩], ext⟩ charYi 0
      ⟨some 1.2, none⟩ = ⟨true, ⟨false⟩⟩ := by
  simp only [strokeMatches]
  rw [stripDuplicates_fwd]
  rw [if_neg (by simp)]
  rw [show Character.strokes charYi = [strokeH] from rfl]
  rw [show List.getD [strokeH] 0 defaultStroke = strokeH from rfl]
  rw [getMatchData_h_lenient]
  rw [if_neg (by simp)]
  rw [show List.drop (0 + 1) [strokeH] = ([] : List Stroke) from rfl]
  rw [if_neg (by simp [closestMatchDist])]

/-- Witness for C3: the exact trace completes the one-stroke quiz from a
state with recorded mistakes; one `onComplete` fires with distinct-stroke
mistake count 1 and the resulting state is Inactive at index 0 with the
mistakes map left in place. -/
theorem check_complete_witness :
    check (some charYi) ⟨true, "yi", 0, [(0, 2)], some paramsNone⟩ [extA, extB] =
      some (⟨false, "yi", 0, [(0, 2)], some paramsNone⟩,
        [QuizEvent.complete "yi" 1]) := by
  have hus : (⟨(⟨true, "yi", 0, [(0, 2)], some paramsNone⟩ : QuizState).index,
      convertExternalPoint positionerHW extA ::
        List.map (convertExternalPoint positionerHW) [extB],
      [extA, extB]⟩ : UserStroke) = ⟨0, [⟨0, 0⟩, ⟨100, 0⟩], [extA, extB]⟩ := by
    rw [List.map_cons, List.map_nil, convert_extA, convert_extB]
  have hr : (⟨true, ⟨false⟩⟩ : StrokeMatchResult) = strokeMatches
      ⟨(⟨true, "yi", 0, [(0, 2)], some paramsNone⟩ : QuizState).index,
        convertExternalPoint positionerHW extA ::
          List.map (convertExternalPoint positionerHW) [extB],
        [extA, extB]⟩ charYi
      (⟨true, "yi", 0, [(0, 2)], some paramsNone⟩ : QuizState).index
      ⟨some (checkLeniency
        (⟨true, "yi", 0, [(0, 2)], some paramsNone⟩ : QuizState).params), none⟩ := by
    rw [hus]
    exact (strokeMatches_exact_trace 0 [extA, extB]).symm
  have h := check_complete charYi ⟨true, "yi", 0, [(0, 2)], some paramsNone⟩
    extA [extB] paramsNone rfl rfl rfl ⟨true, ⟨false⟩⟩ hr rfl
  rw [h]
  simp [keysCount, charYi]

/-- C3 counterexample: completing the quiz from a state with recorded
mistakes leaves the mistakes mapping intact (`[(0, 2)]`, not cleared),
refuting the claimed reset to empty. -/
theorem check_complete_counterexample :
    check (some charYi) ⟨true, "yi", 0, [(0, 2)], some paramsNone⟩ [extA, extB] =
      some (⟨false, "yi", 0, [(0, 2)], some paramsNone⟩,
        [QuizEvent.complete "yi" 1]) ∧
      ([(0, 2)] : List (ℕ × ℕ)) ≠ [] := by
  refine ⟨?_, by simp⟩
  simp only [check, checkCore, List.map_cons, List.map_nil,
    convert_extA, convert_extB]
  rw [show checkLeniency (QuizState.params ⟨true, "yi", 0, [(0, 2)], some paramsNone⟩) =
    (1.2 : ℝ) from rfl]
  rw [strokeMatches_exact_trace 0 [extA, extB]]
  simp [keysCount, charYi]

/-! ## Parser lemmas (C4) -/

/-- The indexed stroke traversal succeeds exactly when every accessed index
has a median entry. -/
theorem generateStrokesGo_ok_iff (ms : List (List Point))
    (rs : Option (List ℕ)) :
    ∀ (ss : List String) (idx : ℕ),
      (∃ l, generateStrokesGo (some ms) rs ss idx = .ok l) ↔
        ∀ i < ss.length, idx + i < ms.length := by
  intro ss
  induction ss with
  | nil =>
    intro idx
    constructor
    · intro _ i hi
      simp at hi
    · intro _
      exact ⟨[], rfl⟩
  | cons s rest ih =>
    intro idx
    constructor
    · rintro ⟨l, hl⟩
      simp only [generateStrokesGo, buildStroke] at hl
      cases hx : ms[idx]? with
      | none =>
        rw [hx] at hl
        simp at hl
      | some pts =>
        rw [hx] at hl
        cases hg : generateStrokesGo (some ms) rs rest (idx + 1) with
        | error e =>
          rw [hg] at hl
          simp at hl
        | ok tl =>
          have hrest := (ih (idx + 1)).mp ⟨tl, hg⟩
          have hidx : idx < ms.length := by
            by_contra hc
            rw [List.getElem?_eq_none (by omega)] at hx
            cases hx
          intro i hi
          cases i with
          | zero => omega
          | succ j =>
            have := hrest j (by simpa using hi)
            omega
    · intro hall
      have hidx : idx < ms.length := by
        have := hall 0 (by simp)
        omega
      have hxne : ms[idx]? ≠ none := by
        rw [ne_eq, List.getElem?_eq_none_iff]
        omega
      cases hx : ms[idx]? with
      | none => exact absurd hx hxne
      | some pts =>
        obtain ⟨tl, hg⟩ := (ih (idx + 1)).mpr (fun i hi => by
          have := hall (i + 1) (by simpa using Nat.succ_lt_succ hi)
          omega)
        refine ⟨⟨s, pts, idx, isInRadicalJson rs idx⟩ :: tl, ?_⟩
        simp only [generateStrokesGo, buildStroke]
        rw [hx, hg]

/-- C4 (amended): `parseCharData` performs no validation and raises no
dedicated `MalformedCharacterData` error: an absent strokes array, or any
stroke index missing its median entry (medians absent with a nonempty
strokes array, or medians shorter than strokes), aborts with a plain
runtime `TypeError` and produces no `Character`; but whenever the medians
array is at least as long as the strokes array — including the mismatched
strictly-longer case — a `Character` is fully constructed. -/
theorem parseCharData_no_validation (symbol : String) (ss : List String)
    (ms : List (List Point)) (rs : Option (List ℕ)) :
    parseCharData symbol ⟨none, some ms, rs⟩ = .error .typeError ∧
      (ss ≠ [] → parseCharData symbol ⟨some ss, none, rs⟩ = .error .typeError) ∧
      ((∃ c, parseCharData symbol ⟨some ss, some ms, rs⟩ = .ok c) ↔
        ss.length ≤ ms.length) := by
  refine ⟨rfl, ?_, ?_, ?_⟩
  · intro hne
    obtain ⟨s, rest, rfl⟩ := List.exists_cons_of_ne_nil hne
    rfl
  · rintro ⟨c, hc⟩
    simp only [parseCharData, generateStrokes] at hc
    cases hg : generateStrokesGo (some ms) rs ss 0 with
    | error e =>
      rw [hg] at hc
      cases hc
    | ok l =>
      have h := (generateStrokesGo_ok_iff ms rs ss 0).mp ⟨l, hg⟩
      by_contra hlt
      push_neg at hlt
      have := h ms.length (by omega)
      omega
  · intro hle
    obtain ⟨l, hg⟩ := (generateStrokesGo_ok_iff ms rs ss 0).mpr
      (fun i hi => by omega)
    refine ⟨⟨symbol, l⟩, ?_⟩
    simp only [parseCharData, generateStrokes]
    rw [hg]

/-- Witness for C4: one stroke with no medians array fails with the runtime
error, and one stroke with an empty medians array yields no Character. -/
theorem parseCharData_no_validation_witness :
    parseCharData "a" ⟨some ["p"], none, none⟩ = .error .typeError ∧
      ¬ ∃ c, parseCharData "a" ⟨some ["p"], some [], none⟩ = .ok c := by
  have h := parseCharData_no_validation "a" ["p"] [] none
  refine ⟨h.2.1 (by simp), ?_⟩
  intro hex
  have h2 := h.2.2.mp hex
  simp at h2

/-- C4 counterexample: with one stroke path but two median entries the
arrays are mismatched in length, yet `parseCharData` happily constructs a
`Character` from the first median (no `MalformedCharacterData` failure),
refuting the claim that no Character is produced for such input. -/
theorem parseCharData_mismatch_counterexample :
    (["p"] : List String).length ≠
        ([[(⟨0, 0⟩ : Point)], [⟨1, 1⟩]] : List (List Point)).length ∧
      parseCharData "x" ⟨some ["p"], some [[⟨0, 0⟩], [⟨1, 1⟩]], none⟩ =
        .ok ⟨"x", [⟨"p", [⟨0, 0⟩], 0, false⟩]⟩ := by
  constructor
  · simp
  · rfl

end HW
